import Mathlib

/-!
Verification of the revault_tx library: a shallow embedding of the
transaction builders (Unvault, Spend, CPFP), the Revault descriptor
construction and introspection, the derived-public-key parser and the
PSBT signing and finalization routines, together with theorems settling
the specification claims about them.

Machine integers of the source (u32, u64, usize) are modelled as Nat;
every arithmetic operation of the source is checked-or-saturating in a
way made explicit at each definition.  Bitcoin external collaborators
(secp256k1, SHA256, BIP-143 digests, the Miniscript compiler, the
consensus verifier) are oracles of the source crate and enter the
embedding as explicit function parameters.
-/

namespace RevaultTx

/-! ## Bitcoin transaction primitives (rust-bitcoin, witness-stripped encoding) -/

/-- Length of the Bitcoin variable-length integer encoding of `n`
(rust-bitcoin `VarInt::len`). -/
def varintLen (n : Nat) : Nat :=
  if n < 253 then 1
  else if n < 65536 then 3
  else if n < 4294967296 then 5
  else 9

/-- A transaction output: amount in sats and scriptPubKey bytes. -/
structure TxOutM where
  value : Nat
  spk : List Nat
  deriving DecidableEq

/-- A transaction input: previous outpoint, signature script bytes and
nSequence.  Witness data is absent: all embedded transactions are
witness-stripped (unsigned) transactions. -/
structure TxInM where
  txid : Nat
  vout : Nat
  scriptSig : List Nat
  sequence : Nat
  deriving DecidableEq

/-- A witness-stripped Bitcoin transaction. -/
structure TxM where
  version : Nat
  lockTime : Nat
  input : List TxInM
  output : List TxOutM
  deriving DecidableEq

/-- Consensus-serialized size of an output: 8 amount bytes plus the
length-prefixed scriptPubKey. -/
def txOutSize (o : TxOutM) : Nat :=
  8 + varintLen o.spk.length + o.spk.length

/-- Consensus-serialized size of an input: 36 outpoint bytes, the
length-prefixed scriptSig and 4 nSequence bytes. -/
def txInSize (i : TxInM) : Nat :=
  36 + varintLen i.scriptSig.length + i.scriptSig.length + 4

/-- Consensus-serialized size of a witness-stripped transaction. -/
def txSize (tx : TxM) : Nat :=
  4 + varintLen tx.input.length + (tx.input.map txInSize).sum
    + varintLen tx.output.length + (tx.output.map txOutSize).sum + 4

/-- Weight of a transaction carrying no witness data
(rust-bitcoin `Transaction::get_weight`, which is four times the
serialized size when every input witness is empty). -/
def getWeight (tx : TxM) : Nat := 4 * txSize tx

/-- The nSequence sentinel used for RBF-signalling non-final inputs. -/
def RBF_SEQUENCE : Nat := 0xfffffffd

/-- Constants of the transactions module (`transactions/mod.rs`). -/
def UNVAULT_CPFP_VALUE : Nat := 30000

def UNVAULT_TX_FEERATE : Nat := 6

def DUST_LIMIT : Nat := 200000

def INSANE_FEES : Nat := 20000000

def MAX_STANDARD_TX_WEIGHT : Nat := 400000

def CPFP_MIN_CHANGE : Nat := 10000

def TX_VERSION : Nat := 2

/-- Maximum amount of money (rust-bitcoin `max_money(Network::Bitcoin)`),
in sats. -/
def MAX_MONEY : Nat := 21000000 * 100000000

/-! ## Unvault transaction (`transactions/unvault.rs`) -/

/-- A derived (concrete-key) descriptor, reduced to the data the
transaction builders read from it: the scriptPubKey of the P2WSH address
it compiles to. -/
structure DerivedDescM where
  spk : List Nat
  deriving DecidableEq

/-- A deposit txin: outpoint, the deposit txout it consumes and the
maximum satisfaction weight of the deposit script, as computed by the
Miniscript oracle and carried by `DepositTxIn` (`txins.rs`). -/
structure DepositTxInM where
  txid : Nat
  vout : Nat
  value : Nat
  spk : List Nat
  maxSatWeight : Nat
  deriving DecidableEq

/-- Modelled from the spec: `DepositTxIn::unsigned_txin` (`txins.rs` is
not part of the sources); per the spec non-final inputs carry the RBF
sentinel nSequence and an empty scriptSig. -/
def DepositTxInM.unsignedTxin (d : DepositTxInM) : TxInM :=
  { txid := d.txid, vout := d.vout, scriptSig := [], sequence := RBF_SEQUENCE }

/-- The unsigned transaction of the PSBT built by
`UnvaultTransaction::create_psbt`: one deposit input, the Unvault output
and the CPFP output. -/
def unvaultCreateTx (dep : DepositTxInM) (unvaultSpk cpfpSpk : List Nat)
    (unvaultValue cpfpValue lockTime : Nat) : TxM :=
  { version := TX_VERSION
    lockTime := lockTime
    input := [dep.unsignedTxin]
    output := [{ value := unvaultValue, spk := unvaultSpk },
               { value := cpfpValue, spk := cpfpSpk }] }

/-- Outcome of `UnvaultTransaction::new`.  The `panicWeight` constructor
stands for the `assert!(total_weight <= MAX_STANDARD_TX_WEIGHT)` of the
source, which panics instead of returning an error. -/
inductive UnvaultNewResult where
  | ok (tx : TxM)
  | insaneFees
  | panicWeight
  | dust
  | insaneAmounts
  deriving DecidableEq

/-- The value u64::MAX used for the dummy outputs of the weight
estimation. -/
def U64_MAX : Nat := 18446744073709551615

/-- Embedding of `UnvaultTransaction::new`: compute the witness-stripped
weight of a dummy transaction, add the deposit input maximum satisfaction
weight, derive the fees at the fixed 6 sat/WU feerate, and build the
final PSBT unless one of the checks trips. -/
def unvaultNew (dep : DepositTxInM) (unvaultDesc cpfpDesc : DerivedDescM)
    (lockTime : Nat) : UnvaultNewResult :=
  let dummyTx := unvaultCreateTx dep unvaultDesc.spk cpfpDesc.spk U64_MAX U64_MAX lockTime
  let totalWeight := getWeight dummyTx + dep.maxSatWeight
  let fees := UNVAULT_TX_FEERATE * totalWeight
  if fees > INSANE_FEES then .insaneFees
  else if totalWeight > MAX_STANDARD_TX_WEIGHT then .panicWeight
  else if fees + UNVAULT_CPFP_VALUE + DUST_LIMIT > dep.value then .dust
  else
    let unvaultValue := dep.value - fees - UNVAULT_CPFP_VALUE
    if unvaultValue > MAX_MONEY then .insaneAmounts
    else .ok (unvaultCreateTx dep unvaultDesc.spk cpfpDesc.spk
      unvaultValue UNVAULT_CPFP_VALUE lockTime)

/-! ## Spend transaction (`transactions/spend.rs`) -/

/-- An unvault txin consumed by the Spend transaction: outpoint, the
Unvault txout it consumes (value and P2WSH scriptPubKey), its maximum
satisfaction weight (Miniscript oracle, carried by `UnvaultTxIn`) and
the nSequence it was created with. -/
structure UnvaultTxInM where
  txid : Nat
  vout : Nat
  value : Nat
  spk : List Nat
  maxSatWeight : Nat
  sequence : Nat
  deriving DecidableEq

/-- Modelled from the spec: `UnvaultTxIn::unsigned_txin` (`txins.rs` is
not part of the sources); the unsigned txin carries the stored nSequence
and an empty scriptSig. -/
def UnvaultTxInM.unsignedTxin (u : UnvaultTxInM) : TxInM :=
  { txid := u.txid, vout := u.vout, scriptSig := [], sequence := u.sequence }

/-- A destination or change txout handed to `SpendTransaction::new`. -/
structure SpendTxOutM where
  value : Nat
  spk : List Nat
  deriving DecidableEq

def SpendTxOutM.toTxOut (o : SpendTxOutM) : TxOutM :=
  { value := o.value, spk := o.spk }

/-- Total maximum satisfaction weight of a list of unvault inputs. -/
def totalSatWeight (inputs : List UnvaultTxInM) : Nat :=
  (inputs.map (·.maxSatWeight)).sum

/-- The dummy transaction assembled by `SpendTransaction::cpfp_txout`
for its weight estimation: dummy u64::MAX CPFP output first, then the
destination outputs, then the optional change output. -/
def spendDummyTx (unvaultInputs : List UnvaultTxInM) (spendTxouts : List SpendTxOutM)
    (changeTxout : Option SpendTxOutM) (cpfpDesc : DerivedDescM) (lockTime : Nat) : TxM :=
  { version := TX_VERSION
    lockTime := lockTime
    input := unvaultInputs.map UnvaultTxInM.unsignedTxin
    output := { value := U64_MAX, spk := cpfpDesc.spk }
      :: (spendTxouts.map SpendTxOutM.toTxOut
          ++ (changeTxout.map SpendTxOutM.toTxOut).toList) }

/-- Embedding of `SpendTransaction::cpfp_txout`: the CPFP output value is
16 times the witness-stripped weight of the dummy transaction plus the
total maximum satisfaction weight of the inputs. -/
def spendCpfpTxout (unvaultInputs : List UnvaultTxInM) (spendTxouts : List SpendTxOutM)
    (changeTxout : Option SpendTxOutM) (cpfpDesc : DerivedDescM) (lockTime : Nat) : TxOutM :=
  let txos := { value := U64_MAX, spk := cpfpDesc.spk }
    :: (spendTxouts.map SpendTxOutM.toTxOut
        ++ (changeTxout.map SpendTxOutM.toTxOut).toList)
  let dummyTx : TxM :=
    { version := TX_VERSION
      lockTime := lockTime
      input := unvaultInputs.map UnvaultTxInM.unsignedTxin
      output := txos }
  let satWeight := totalSatWeight unvaultInputs
  let witstripWeight := getWeight dummyTx
  let totalWeight := satWeight + witstripWeight
  { value := 16 * totalWeight, spk := cpfpDesc.spk }

/-- Outcome of `SpendTransaction::new`. -/
inductive SpendNewResult where
  | ok (tx : TxM)
  | duplicatedInput
  | dust
  | tooLarge
  | insaneAmounts
  | negativeFees
  | insaneFees
  deriving DecidableEq

/-- Sum of the values of the destination outputs plus the optional
change output (the quantity the source accumulates in `value_out`;
it does not include the CPFP output). -/
def spendValueOut (spendTxouts : List SpendTxOutM) (changeTxout : Option SpendTxOutM) : Nat :=
  (spendTxouts.map (·.value)).sum + ((changeTxout.map (·.value)).getD 0)

/-- Sum of the values of the consumed unvault txouts (`value_in`). -/
def spendValueIn (unvaultInputs : List UnvaultTxInM) : Nat :=
  (unvaultInputs.map (·.value)).sum

/-- Embedding of `SpendTransaction::new`.  The dust threshold of a
scriptPubKey (rust-bitcoin `Script::dust_value`) is an external oracle
passed as the `dustValue` parameter. -/
def spendNew (dustValue : List Nat → Nat) (unvaultInputs : List UnvaultTxInM)
    (spendTxouts : List SpendTxOutM) (changeTxout : Option SpendTxOutM)
    (cpfpDesc : DerivedDescM) (lockTime : Nat) (insaneFeeCheck : Bool) : SpendNewResult :=
  if ¬ (unvaultInputs.map fun i => (i.txid, i.vout)).Nodup then .duplicatedInput
  else
    let cpfpTxo := spendCpfpTxout unvaultInputs spendTxouts changeTxout cpfpDesc lockTime
    let satWeight := totalSatWeight unvaultInputs
    if spendTxouts.any (fun o => o.value < dustValue o.spk) then .dust
    else if changeTxout.any (fun c => decide (c.value < dustValue c.spk)) then .dust
    else
      let valueIn := spendValueIn unvaultInputs
      let valueOut := spendValueOut spendTxouts changeTxout
      let tx : TxM :=
        { version := TX_VERSION
          lockTime := lockTime
          input := unvaultInputs.map UnvaultTxInM.unsignedTxin
          output := cpfpTxo
            :: (spendTxouts.map SpendTxOutM.toTxOut
                ++ (changeTxout.map SpendTxOutM.toTxOut).toList) }
      let witstripWeight := getWeight tx
      if satWeight + witstripWeight > MAX_STANDARD_TX_WEIGHT then .tooLarge
      else if valueOut > MAX_MONEY then .insaneAmounts
      else if valueIn < valueOut then .negativeFees
      else if insaneFeeCheck ∧ valueIn - valueOut > INSANE_FEES then .insaneFees
      else .ok tx

/-! ## PSBT model (BIP-174 container, the fields the library reads) -/

/-- A PSBT input.  `sigs` is the partial_sigs map, as an association
list from (compressed) public keys to signature bytes.  The
non-witness-utxo and redeem-script fields, which the library only ever
asserts absent, are kept as presence flags. -/
structure PsbtInputM where
  finalScriptWitness : Option (List (List Nat))
  witnessUtxo : Option TxOutM
  hasNonWitnessUtxo : Bool
  witnessScript : Option (List Nat)
  hasRedeemScript : Bool
  sighashType : Option Nat
  sigs : List (Nat × List Nat)
  bip32Nonempty : Bool
  deriving DecidableEq

/-- A PSBT output, reduced to whether its bip32_derivation map is
non-empty. -/
structure PsbtOutM where
  bip32Nonempty : Bool
  deriving DecidableEq

/-- A PSBT: the unsigned transaction and the per-input / per-output
maps. -/
structure PsbtM where
  tx : TxM
  inputs : List PsbtInputM
  outputs : List PsbtOutM
  deriving DecidableEq

/-- rust-bitcoin `Script::is_v0_p2wsh`: version-0 witness program of
length 32 (`OP_0 PUSH32 <32 bytes>`). -/
def isV0P2wsh (s : List Nat) : Bool :=
  match s with
  | 0 :: 32 :: rest => rest.length == 32
  | _ => false

/-- rust-bitcoin `Script::is_v0_p2wpkh`: version-0 witness program of
length 20. -/
def isV0P2wpkh (s : List Nat) : Bool :=
  match s with
  | 0 :: 20 :: rest => rest.length == 20
  | _ => false

/-- The P2WSH scriptPubKey of a witness script
(`Script::to_v0_p2wsh`), parameterized by the SHA256 oracle. -/
def toV0P2wsh (sha : List Nat → List Nat) (ws : List Nat) : List Nat :=
  0 :: 32 :: sha ws

/-- The u32 encoding of `SigHashType::All`. -/
def SIGHASH_ALL : Nat := 1

/-- The u32 encoding of `SigHashType::AllPlusAnyoneCanPay`. -/
def SIGHASH_ALL_ACP : Nat := 0x81

/-- Modelled from the spec: `utils::psbt_common_sanity_checks`
(`transactions/utils.rs` is not part of the sources).  Per the spec,
every input must have `witness_utxo` set and `non_witness_utxo` unset,
and the per-input and per-output maps must match the unsigned
transaction. -/
def psbtCommonSanity (p : PsbtM) : Bool :=
  p.inputs.length == p.tx.input.length
    && p.outputs.length == p.tx.output.length
    && p.inputs.all (fun i => i.witnessUtxo.isSome && !i.hasNonWitnessUtxo)

/-- Errors of the Spend PSBT parser. -/
inductive SpendPsbtErr where
  | sanity
  | invalidInputCount
  | invalidInputField
  | invalidSighashType
  | invalidInWitnessScript
  | missingInWitnessScript
  | invalidCountOutputWithDerivations
  | transactionTooLarge
  deriving DecidableEq

/-- The per-input loop of `SpendTransaction::from_raw_psbt`: check each
input and accumulate the maximum satisfaction weight of the non-final
ones.  `msMaxSat` is the Miniscript oracle
`Wsh::new(Miniscript::parse(ws))?.max_satisfaction_weight()`. -/
def spendInputsMaxSat (sha : List Nat → List Nat) (msMaxSat : List Nat → Option Nat) :
    List PsbtInputM → Except SpendPsbtErr Nat
  | [] => .ok 0
  | pin :: rest =>
    match pin.witnessUtxo with
    | none => .error .sanity
    | some txo =>
      if ¬ isV0P2wsh txo.spk then .error .invalidInputField
      else if pin.finalScriptWitness.isSome then spendInputsMaxSat sha msMaxSat rest
      else if pin.sighashType ≠ some SIGHASH_ALL then .error .invalidSighashType
      else
        match pin.witnessScript with
        | none => .error .missingInWitnessScript
        | some ws =>
          if toV0P2wsh sha ws ≠ txo.spk then .error .invalidInWitnessScript
          else if ¬ pin.bip32Nonempty then .error .invalidInputField
          else
            match msMaxSat ws with
            | none => .error .invalidInputField
            | some w => (spendInputsMaxSat sha msMaxSat rest).map (· + w)

/-- Embedding of `SpendTransaction::from_raw_psbt` on an already-decoded
PSBT (the BIP-174 wire codec is an external oracle; decoding failures
are out of scope of the structural checks modelled here). -/
def spendFromPsbt (sha : List Nat → List Nat) (msMaxSat : List Nat → Option Nat)
    (p : PsbtM) : Except SpendPsbtErr PsbtM :=
  if ¬ psbtCommonSanity p then .error .sanity
  else if p.inputs.isEmpty then .error .invalidInputCount
  else
    match spendInputsMaxSat sha msMaxSat p.inputs with
    | .error e => .error e
    | .ok maxSatWeight =>
      let derivationCount := (p.outputs.filter (·.bip32Nonempty)).length
      if derivationCount > 2 then .error .invalidCountOutputWithDerivations
      else if derivationCount < 1 then .error .invalidCountOutputWithDerivations
      else if getWeight p.tx + maxSatWeight > MAX_STANDARD_TX_WEIGHT then
        .error .transactionTooLarge
      else .ok p

/-! ## CPFP transaction (`transactions/cpfp.rs`) -/

/-- A CPFP txin handed to `CpfpTransaction::from_txins`: outpoint, the
CPFP txout it consumes (value and scriptPubKey) and its maximum
satisfaction weight (Miniscript oracle, carried by `CpfpTxIn`). -/
structure CpfpTxInM where
  txid : Nat
  vout : Nat
  value : Nat
  spk : List Nat
  satWeight : Nat
  deriving DecidableEq

/-- The unsigned txin built for a selected CPFP coin: RBF sequence,
empty scriptSig. -/
def mkCpfpTxIn (c : CpfpTxInM) : TxInM :=
  { txid := c.txid, vout := c.vout, scriptSig := [], sequence := RBF_SEQUENCE }

/-- Insertion into a list sorted by ascending txout value. -/
def insertByValue (c : CpfpTxInM) : List CpfpTxInM → List CpfpTxInM
  | [] => [c]
  | d :: rest => if c.value ≤ d.value then c :: d :: rest else d :: insertByValue c rest

/-- Sorting by ascending txout value
(`available_utxos.sort_unstable_by_key`). -/
def sortByValue : List CpfpTxInM → List CpfpTxInM
  | [] => []
  | c :: rest => insertByValue c (sortByValue rest)

/-- The OP_RETURN script used for the CPFP output (`op_return_script`):
an empty push when the transaction has more than one input, a 22-byte
zero padding otherwise (minimum standard transaction size). -/
def opReturnScriptFor (inputCount : Nat) : List Nat :=
  if 1 < inputCount then [106, 0]
  else 106 :: 22 :: List.replicate 22 0

/-- Replace the first output of a transaction with the given value and
script. -/
def setOutput0 (tx : TxM) (value : Nat) (spk : List Nat) : TxM :=
  { tx with output := match tx.output with
      | _ :: rest => { value := value, spk := spk } :: rest
      | [] => [] }

/-- Replace the value of the first output of a transaction. -/
def setOutput0Value (tx : TxM) (value : Nat) : TxM :=
  { tx with output := match tx.output with
      | o :: rest => { o with value := value } :: rest
      | [] => [] }

/-- Sum of the consumed txout values of a list of CPFP txins. -/
def cpfpSumValues (l : List CpfpTxInM) : Nat := (l.map (·.value)).sum

/-- Sum of the maximum satisfaction weights of a list of CPFP txins. -/
def cpfpSumSat (l : List CpfpTxInM) : Nat := (l.map (·.satWeight)).sum

/-- Sum of the output values of a transaction. -/
def outputsValueSum (tx : TxM) : Nat := (tx.output.map (·.value)).sum

/-- Outcome of `CpfpTransaction::from_txins`.  On success the final
unsigned transaction and the list of consumed txins (to-be-CPFPed ones
first, then the selected fee-paying coins in selection order) are
returned.  `panicEmptyTbc` stands for the
`assert!(!to_be_cpfped.is_empty())` panic and `panicDivByZero` for the
u64 division by a zero `tbc_weight`. -/
inductive CpfpResult where
  | ok (tx : TxM) (sel : List CpfpTxInM)
  | insufficientFunds
  | panicEmptyTbc
  | panicDivByZero
  deriving DecidableEq

/-- The fees needed by the current package at the target feerate:
`target * package_weight / 1000 - tbc_fees`, where the package weight
adds the template weight, the accumulated satisfaction weight and the
to-be-CPFPed weight.  The Amount subtraction of the source is modelled
by truncated Nat subtraction; `cpfp_fees_needed_ge_tbc_fees` below
shows it never underflows. -/
def cpfpFeesNeeded (tbcWeight tbcFees target : Nat) (tx : TxM) (satWeight : Nat) : Nat :=
  target * (getWeight tx + satWeight + tbcWeight) / 1000 - tbcFees

/-- The template with its single output replaced by the zero-value
OP_RETURN output (`op_return_tx` of the selection loop). -/
def cpfpOprTxOf (tx : TxM) : TxM :=
  setOutput0 tx 0 (opReturnScriptFor tx.input.length)

/-- The coin-selection loop of `CpfpTransaction::from_txins`.  `tx` is
the current transaction template (output 0 is the dummy change),
`satWeight` and `inputsSum` the accumulated satisfaction weight and
input value of the txins selected so far (`sel`), and `stack` holds the
remaining candidates, largest value first (the source pops from a
vector sorted in ascending order). -/
def cpfpLoop (tbcWeight tbcFees target : Nat) (tx : TxM) (satWeight inputsSum : Nat)
    (sel stack : List CpfpTxInM) : CpfpResult :=
  if inputsSum > cpfpFeesNeeded tbcWeight tbcFees target tx satWeight
      ∨ inputsSum > cpfpFeesNeeded tbcWeight tbcFees target (cpfpOprTxOf tx) satWeight then
    if inputsSum > cpfpFeesNeeded tbcWeight tbcFees target tx satWeight
        ∧ inputsSum - cpfpFeesNeeded tbcWeight tbcFees target tx satWeight
            > CPFP_MIN_CHANGE then
      .ok (setOutput0Value tx (inputsSum - cpfpFeesNeeded tbcWeight tbcFees target tx satWeight))
        sel
    else .ok (cpfpOprTxOf tx) sel
  else
    match stack with
    | [] => .insufficientFunds
    | c :: rest =>
      cpfpLoop tbcWeight tbcFees target
        { tx with input := tx.input ++ [mkCpfpTxIn c] }
        (satWeight + c.satWeight) (inputsSum + c.value) (sel ++ [c]) rest

/-- The package feerate targeted by `from_txins` (sat/kWU fixed point):
`1000 * (tbc_fees + tbc_weight) / tbc_weight + added_feerate`. -/
def targetFeerateOf (tbcWeight tbcFees addedFeerate : Nat) : Nat :=
  1000 * (tbcFees + tbcWeight) / tbcWeight + addedFeerate

/-- The initial transaction template of `from_txins`: the to-be-CPFPed
txins and a single dummy change output copied from the last of them. -/
def cpfpInitTx (c0 : CpfpTxInM) (tbcRest : List CpfpTxInM) : TxM :=
  { version := 2, lockTime := 0, input := (c0 :: tbcRest).map mkCpfpTxIn,
    output := [{ value := ((c0 :: tbcRest).getLastD c0).value,
                 spk := ((c0 :: tbcRest).getLastD c0).spk }] }

/-- Embedding of `CpfpTransaction::from_txins`. -/
def cpfpFromTxins : List CpfpTxInM → Nat → Nat → Nat → List CpfpTxInM → CpfpResult
  | [], _, _, _, _ => .panicEmptyTbc
  | c0 :: tbcRest, tbcWeight, tbcFees, addedFeerate, availableUtxos =>
    if tbcWeight = 0 then .panicDivByZero
    else
      cpfpLoop tbcWeight tbcFees (targetFeerateOf tbcWeight tbcFees addedFeerate)
        (cpfpInitTx c0 tbcRest) (cpfpSumSat (c0 :: tbcRest)) (cpfpSumValues (c0 :: tbcRest))
        (c0 :: tbcRest) ((sortByValue availableUtxos).reverse)

/-- The final transaction template when the selection has consumed the
to-be-CPFPed txins plus the coins `cands`, with an OP_RETURN output. -/
def cpfpOpReturnTx (sel : List CpfpTxInM) : TxM :=
  { version := 2, lockTime := 0, input := sel.map mkCpfpTxIn,
    output := [{ value := 0, spk := opReturnScriptFor sel.length }] }

/-- A package spanning the to-be-CPFPed txins plus the candidate coins
`s` reaches the target feerate: spending them all towards a zero-value
OP_RETURN output (the maximal-fee package on these txins) yields an
effective package feerate of at least the target. -/
def reachesTargetFeerate (tbc : List CpfpTxInM) (tbcWeight tbcFees addedFeerate : Nat)
    (s : List CpfpTxInM) : Prop :=
  let sel := tbc ++ s
  targetFeerateOf tbcWeight tbcFees addedFeerate
      * (getWeight (cpfpOpReturnTx sel) + cpfpSumSat sel + tbcWeight)
    ≤ 1000 * (tbcFees + cpfpSumValues sel)

/-- The claim that every successful `from_txins` call produces a package
whose effective feerate is at least the requested target feerate
(comparison cross-multiplied by 1000 and the package weight; the package
fees are the to-be-CPFPed fees plus the fees of the CPFP transaction
itself). -/
def cpfpClaimOkPart : Prop :=
  ∀ (tbc : List CpfpTxInM) (tbcWeight tbcFees addedFeerate : Nat)
    (avail : List CpfpTxInM) (tx : TxM) (sel : List CpfpTxInM),
    cpfpFromTxins tbc tbcWeight tbcFees addedFeerate avail = .ok tx sel →
    targetFeerateOf tbcWeight tbcFees addedFeerate
        * (getWeight tx + cpfpSumSat sel + tbcWeight)
      ≤ 1000 * (tbcFees + (cpfpSumValues sel - outputsValueSum tx))

/-- The claim that whenever `from_txins` fails with InsufficientFunds,
no subset of the candidate UTxOs reaches the target feerate. -/
def cpfpClaimErrPart : Prop :=
  ∀ (tbc : List CpfpTxInM) (tbcWeight tbcFees addedFeerate : Nat)
    (avail : List CpfpTxInM),
    cpfpFromTxins tbc tbcWeight tbcFees addedFeerate avail = .insufficientFunds →
    ∀ s : List CpfpTxInM, s.Sublist avail →
      ¬ reachesTargetFeerate tbc tbcWeight tbcFees addedFeerate s

/-! ## Script descriptors (`scripts.rs`) -/

/-- CSV masking constants (`scripts.rs` / miniscript limits):
`SEQUENCE_LOCKTIME_MASK`, `SEQUENCE_LOCKTIME_DISABLE_FLAG` (bit 31) and
`SEQUENCE_LOCKTIME_TYPE_FLAG` (bit 22). -/
def SEQUENCE_LOCKTIME_MASK : Nat := 0x0000ffff

def SEQUENCE_LOCKTIME_DISABLE_FLAG : Nat := 0x80000000

def SEQUENCE_LOCKTIME_TYPE_FLAG : Nat := 0x00400000

/-- A concrete Miniscript policy (miniscript `policy::concrete::Policy`),
restricted to the fragments the Revault descriptors use.  Keys are
identified by a Nat. -/
inductive CPol where
  | key (k : Nat)
  | thresh (k : Nat) (subs : List CPol)
  | and2 (l r : CPol)
  | or2 (wl : Nat) (l : CPol) (wr : Nat) (r : CPol)
  | older (t : Nat)

/-- The concrete policy assembled by the `unvault_desc!` macro:
`or(1@thresh(n_stk, stakeholders), 9@and(thresh(t, managers),
and(thresh(n_cosig, cosigners), older(csv))))`. -/
def unvaultPolicy (stakeholders managers : List Nat) (managersThreshold : Nat)
    (cosigners : List Nat) (csvValue : Nat) : CPol :=
  let spendersThres := CPol.thresh managersThreshold (managers.map CPol.key)
  let stakeholdersThres := CPol.thresh stakeholders.length (stakeholders.map CPol.key)
  let cosignersThres := CPol.thresh cosigners.length (cosigners.map CPol.key)
  let cosignersAndCsv := CPol.and2 cosignersThres (CPol.older csvValue)
  let managersAndCosignersAndCsv := CPol.and2 spendersThres cosignersAndCsv
  CPol.or2 1 stakeholdersThres 9 managersAndCosignersAndCsv

/-- A semantic Miniscript policy (miniscript `policy::semantic::Policy`),
restricted to the fragments reachable from Revault policies (no
Trivial / Unsatisfiable, which cannot arise from them). -/
inductive SemPol where
  | key (k : Nat)
  | older (t : Nat)
  | thresh (k : Nat) (subs : List SemPol)

mutual

/-- Modelled from the spec: lifting a concrete policy to its semantic
policy (external miniscript `Liftable`); an and is a full threshold, an
or a 1-threshold with the weights dropped. -/
def liftPol : CPol → SemPol
  | .key k => .key k
  | .older t => .older t
  | .thresh k subs => .thresh k (liftPolList subs)
  | .and2 l r => .thresh 2 [liftPol l, liftPol r]
  | .or2 _ l _ r => .thresh 1 [liftPol l, liftPol r]

/-- Lifting of a list of concrete policies. -/
def liftPolList : List CPol → List SemPol
  | [] => []
  | p :: ps => liftPol p :: liftPolList ps

end

/-- One pass of the semantic-policy flattening: inside an and
(`k = |subs|`), child ands are spliced in; inside an or (`k = 1`), child
ors are spliced in; a 1-of-1 parent splices nothing. -/
def flattenSubs (isAnd isOr : Bool) : List SemPol → List SemPol
  | [] => []
  | s :: rest =>
    (match s with
     | .thresh k2 subs2 =>
       if isAnd && isOr then [.thresh k2 subs2]
       else if isAnd && (k2 == subs2.length) then subs2
       else if isOr && (k2 == 1) then subs2
       else [.thresh k2 subs2]
     | x => [x]) ++ flattenSubs isAnd isOr rest

/-- Collapse of a singleton flattened threshold into its only child. -/
def collapseSingle (m : Nat) (ret : List SemPol) : SemPol :=
  match ret with
  | [single] => single
  | _ => .thresh m ret

/-- Modelled from the spec: normalization of a threshold node with
already-normalized children (external miniscript
`semantic::Policy::normalized`): flatten nested ands and ors, recompute
the threshold, collapse a singleton. -/
def normThresh (k : Nat) (subs : List SemPol) : SemPol :=
  let isAnd := k == subs.length
  let isOr := k == 1
  let ret := flattenSubs isAnd isOr subs
  let m := if isAnd && !isOr then ret.length else if isOr && !isAnd then 1 else k
  collapseSingle m ret

mutual

/-- Modelled from the spec: recursive semantic-policy normalization
(external miniscript `semantic::Policy::normalized`). -/
def normalized : SemPol → SemPol
  | .key k => .key k
  | .older t => .older t
  | .thresh k subs => normThresh k (normalizedList subs)

/-- Normalization of a list of semantic policies. -/
def normalizedList : List SemPol → List SemPol
  | [] => []
  | p :: ps => normalized p :: normalizedList ps

end

mutual

/-- First `older` fragment of a concrete policy, mirroring
`unvault_descriptor_csv` which locates the unique `Older` node of the
compiled Miniscript (the compiler oracle preserves the unique timelock
of the policy). -/
def csvValueOf : CPol → Option Nat
  | .key _ => none
  | .older t => some t
  | .thresh _ subs => csvValueOfList subs
  | .and2 l r => (csvValueOf l).orElse fun _ => csvValueOf r
  | .or2 _ l _ r => (csvValueOf l).orElse fun _ => csvValueOf r

/-- First `older` fragment among a list of concrete policies. -/
def csvValueOfList : List CPol → Option Nat
  | [] => none
  | p :: ps => (csvValueOf p).orElse fun _ => csvValueOfList ps

end

/-- Whether a semantic policy is an `Older` fragment. -/
def isOlderPol : SemPol → Bool
  | .older _ => true
  | _ => false

/-- The threshold of a semantic policy, when it is a threshold node. -/
def threshOf : SemPol → Option Nat
  | .thresh k _ => some k
  | _ => none

/-- Outcome of `unvault_descriptor_managers_threshold`: either the
returned `Option<usize>`, or one of the unreachable-shape panics. -/
inductive MansThreshResult where
  | result (r : Option Nat)
  | panicShape
  deriving DecidableEq

/-- The branch scan of `unvault_descriptor_managers_threshold`: find the
and-branch (`k = |subs|`) containing a CSV and extract the inner
manager threshold, if any. -/
def mansThreshScan : List SemPol → MansThreshResult
  | [] => .panicShape
  | s :: rest =>
    match s with
    | .thresh k subs =>
      if k == subs.length && subs.any isOlderPol then
        .result (subs.findSome? threshOf)
      else mansThreshScan rest
    | _ => mansThreshScan rest

/-- Embedding of `unvault_descriptor_managers_threshold`, acting on the
normalized lifted semantic policy of the descriptor: the root must be a
1-threshold of exactly two branches; the managers branch is the and
containing the CSV. -/
def managersThresholdOf (d : CPol) : MansThreshResult :=
  match normalized (liftPol d) with
  | .thresh 1 subs =>
    if subs.length == 2 then mansThreshScan subs else .panicShape
  | _ => .panicShape

/-- Errors of the descriptor constructors. -/
inductive ScriptErr where
  | badParameters
  | nonWildcardKeys
  deriving DecidableEq

/-- The parameter checks shared by `UnvaultDescriptor::new` and
`DerivedUnvaultDescriptor::new` (`unvault_desc_checks!`). -/
def unvaultDescChecksFail (numStakeholders numManagers managersThreshold
    numCosigners csvValue : Nat) : Bool :=
  numStakeholders == 0 || numManagers == 0 || numCosigners != numStakeholders
    || managersThreshold > numManagers
    || (csvValue &&& SEQUENCE_LOCKTIME_DISABLE_FLAG) != 0
    || (csvValue &&& SEQUENCE_LOCKTIME_TYPE_FLAG) != 0
    || (csvValue &&& SEQUENCE_LOCKTIME_MASK) != csvValue

/-- A generic descriptor public key: either an xpub (with or without a
wildcard) or a single raw pubkey. -/
inductive GDescKey where
  | xpub (wildcard : Bool) (k : Nat)
  | singlePub (k : Nat)
  deriving DecidableEq

/-- The key identity of a generic descriptor key. -/
def GDescKey.keyId : GDescKey → Nat
  | .xpub _ k => k
  | .singlePub k => k

/-- The wildcard check `check_deriveable`: every key must be an xpub
carrying a wildcard. -/
def checkDeriveable (ks : List GDescKey) : Bool :=
  ks.all fun k => match k with
    | .xpub w _ => w
    | .singlePub _ => false

/-- Embedding of `UnvaultDescriptor::new` on generic keys.  The policy
compilation itself is the external Miniscript compiler oracle; the
descriptor is identified with the policy it compiles. -/
def unvaultDescriptorNew (stakeholders managers : List GDescKey)
    (managersThreshold : Nat) (cosigners : List GDescKey) (csvValue : Nat) :
    Except ScriptErr CPol :=
  if unvaultDescChecksFail stakeholders.length managers.length managersThreshold
      cosigners.length csvValue then .error .badParameters
  else if ¬ checkDeriveable (stakeholders ++ managers) then .error .nonWildcardKeys
  else .ok (unvaultPolicy (stakeholders.map GDescKey.keyId) (managers.map GDescKey.keyId)
    managersThreshold (cosigners.map GDescKey.keyId) csvValue)

/-- Embedding of `DerivedUnvaultDescriptor::new` on derived keys. -/
def derivedUnvaultDescriptorNew (stakeholders managers : List Nat)
    (managersThreshold : Nat) (cosigners : List Nat) (csvValue : Nat) :
    Except ScriptErr CPol :=
  if unvaultDescChecksFail stakeholders.length managers.length managersThreshold
      cosigners.length csvValue then .error .badParameters
  else .ok (unvaultPolicy stakeholders managers managersThreshold cosigners csvValue)

/-! ## Derived public key textual parsing (`scripts.rs`, `FromStr for DerivedPublicKey`) -/

/-- ASCII hexadecimal digit bytes. -/
def isHexDigitByte (b : Nat) : Bool :=
  (48 ≤ b && b ≤ 57) || (97 ≤ b && b ≤ 102) || (65 ≤ b && b ≤ 70)

/-- ASCII decimal digit bytes. -/
def isDecDigitByte (b : Nat) : Bool := 48 ≤ b && b ≤ 57

/-- Decimal value of a digit string. -/
def decValue (s : List Nat) : Nat := s.foldl (fun acc b => acc * 10 + (b - 48)) 0

/-- Rust `u32::from_str`: an optional leading plus sign, at least one
decimal digit, and no overflow past 2^32. -/
def parseU32 (s : List Nat) : Option Nat :=
  let core := fun (t : List Nat) =>
    if t ≠ [] && t.all isDecDigitByte && decValue t < 4294967296 then some (decValue t)
    else none
  match s with
  | 43 :: rest => core rest
  | _ => core s

/-- Splitting a byte string on a separator byte (Rust `str::split`,
which always yields at least one piece). -/
def splitOnByte (sep : Nat) : List Nat → List (List Nat)
  | [] => [[]]
  | b :: rest =>
    let r := splitOnByte sep rest
    if b == sep then [] :: r
    else
      match r with
      | h :: t => (b :: h) :: t
      | [] => [[b]]

/-- rust-bitcoin `ChildNumber::from_str`: a trailing apostrophe or `h`
denotes a hardened index; the numeric part parses as u32 and must stay
below 2^31 (`from_normal_idx` / `from_hardened_idx`).  Returns the
hardened flag and the index. -/
def childNumberFromStr (t : List Nat) : Option (Bool × Nat) :=
  let hardened := (t.getLast?.map fun b => b == 39 || b == 104).getD false
  if hardened then
    match parseU32 t.dropLast with
    | some v => if v < 2147483648 then some (true, v) else none
    | none => none
  else
    match parseU32 t with
    | some v => if v < 2147483648 then some (false, v) else none
    | none => none

/-- Modelled from the spec: rust-bitcoin `PublicKey::from_str` (secp
point validity is an external oracle and is not modelled, making the
acceptance a superset): 66 hex characters starting 02 or 03, or 130 hex
characters starting 04. -/
def pubkeyParses (k : List Nat) : Bool :=
  (k.length == 66 && k.all isHexDigitByte && (k.take 2 == [48, 50] || k.take 2 == [48, 51]))
    || (k.length == 130 && k.all isHexDigitByte && k.take 2 == [48, 52])

/-- A parsed derived public key: the fingerprint hex bytes, the
(non-hardened) derivation index, and the key hex bytes. -/
structure DerivedPkM where
  fingerprint : List Nat
  index : Nat
  keyBytes : List Nat
  deriving DecidableEq

/-- Embedding of `DerivedPublicKey::from_str` on the byte string:
minimum length 78, every byte in 20..=127, a leading opening bracket,
then fingerprint, index and key split out of the bracketed origin. -/
def derivedPublicKeyFromStr (s : List Nat) : Option DerivedPkM :=
  if s.length < 78 then none
  else if s.any (fun b => b < 20 || 127 < b) then none
  else if s.head? ≠ some 91 then none
  else
    match splitOnByte 93 (s.drop 1) with
    | [] => none
    | fgDeriv :: parts =>
      match parts.head? with
      | none => none
      | some keyStr =>
        if fgDeriv.length < 10 then none
        else if ¬ (fgDeriv.take 8).all isHexDigitByte then none
        else
          match childNumberFromStr (fgDeriv.drop 9) with
          | none => none
          | some (hardened, idx) =>
            if hardened then none
            else if pubkeyParses keyStr then
              some { fingerprint := fgDeriv.take 8, index := idx, keyBytes := keyStr }
            else none

/-! ## Transaction core: signing (`transactions/mod.rs`, `add_signature`) -/

/-- The implicit P2PKH script code of a P2WPKH input
(`Script::new_p2pkh`). -/
def p2pkhScript (pkh : List Nat) : List Nat :=
  118 :: 169 :: 20 :: (pkh ++ [136, 172])

/-- Outcome of `signature_hash`.  The `panic` constructor covers the
source `expect` / `assert!` paths (missing witness utxo, a previous
txout that is neither P2WSH nor P2WPKH). -/
inductive SigHashRes where
  | ok (msg : Nat)
  | outOfBounds
  | missingWitnessScript
  | panic
  deriving DecidableEq

/-- Embedding of `signature_hash` (through `signature_hash_cached`):
deduce the script code from the previous scriptPubKey and hand it to
the BIP-143 digest oracle `bip143`. -/
def signatureHashM (bip143 : Nat → List Nat → Nat → Nat → Nat) (p : PsbtM)
    (inputIndex sighashType : Nat) : SigHashRes :=
  match p.inputs[inputIndex]? with
  | none => .outOfBounds
  | some pin =>
    match pin.witnessUtxo with
    | none => .panic
    | some prevTxo =>
      if isV0P2wsh prevTxo.spk then
        match pin.witnessScript with
        | none => .missingWitnessScript
        | some ws => .ok (bip143 inputIndex ws prevTxo.value sighashType)
      else if isV0P2wpkh prevTxo.spk then
        .ok (bip143 inputIndex (p2pkhScript (prevTxo.spk.drop 2)) prevTxo.value sighashType)
      else .panic

/-- Insertion into the partial_sigs map (BTreeMap `insert`): returns the
previous value bound to the key, if any, together with the updated
map. -/
def insertSig : List (Nat × List Nat) → Nat → List Nat →
    Option (List Nat) × List (Nat × List Nat)
  | [], pk, v => (none, [(pk, v)])
  | (k, w) :: rest, pk, v =>
    if k == pk then (some w, (pk, v) :: rest)
    else
      let r := insertSig rest pk v
      (r.1, (k, w) :: r.2)

/-- Outcome of `add_signature`.  On success, the previous partial
signature bound to the key (if any) and the updated PSBT input list are
returned; `panic` covers the source asserts (witness utxo present, no
non-witness utxo, scriptPubKey matching the witness script, no redeem
script, sighash type recorded). -/
inductive AddSigResult where
  | ok (prev : Option (List Nat)) (inputs : List PsbtInputM)
  | outOfBounds
  | alreadyFinalized
  | invalidSignature
  | missingWitnessScript
  | panic
  deriving DecidableEq

/-- Embedding of `add_signature`: index lookup, finalization guard,
BIP-174 signer checks, sighash recomputation under the recorded sighash
type, ECDSA verification through the `verify` oracle, and insertion of
the DER-encoded signature (`der` oracle) with the sighash-type byte
appended. -/
def addSignatureM (sha : List Nat → List Nat) (bip143 : Nat → List Nat → Nat → Nat → Nat)
    (verify : Nat → Nat → Nat → Bool) (der : Nat → List Nat)
    (p : PsbtM) (inputIndex pubkey signature : Nat) : AddSigResult :=
  match p.inputs[inputIndex]? with
  | none => .outOfBounds
  | some pin =>
    if pin.finalScriptWitness.isSome then .alreadyFinalized
    else
      match pin.witnessUtxo with
      | none => .panic
      | some prevTxo =>
        if pin.hasNonWitnessUtxo then .panic
        else
          let spkOk := match pin.witnessScript with
            | some ws => toV0P2wsh sha ws == prevTxo.spk
            | none => isV0P2wpkh prevTxo.spk
          if !spkOk then .panic
          else if pin.hasRedeemScript then .panic
          else
            match pin.sighashType with
            | none => .panic
            | some sighashType =>
              match signatureHashM bip143 p inputIndex sighashType with
              | .outOfBounds => .outOfBounds
              | .missingWitnessScript => .missingWitnessScript
              | .panic => .panic
              | .ok msg =>
                if ¬ verify msg signature pubkey then .invalidSignature
                else
                  let rawsig := der signature ++ [sighashType % 256]
                  let r := insertSig pin.sigs pubkey rawsig
                  .ok r.1 (p.inputs.set inputIndex { pin with sigs := r.2 })

/-! ## Transaction core: finalization (`transactions/mod.rs`, `finalize`) -/

/-- Embedding of `verify_inputs`: every input is checked against the
consensus oracle `consensusVerify` with its previous scriptPubKey and
value, the serialized transaction (here the whole PSBT) and the input
index.  The source panics when a witness utxo is missing; the library
never builds such inputs and the case is mapped to a failure here. -/
def verifyInputsM (consensusVerify : List Nat → Nat → PsbtM → Nat → Bool)
    (p : PsbtM) : Bool :=
  (List.range p.inputs.length).all fun i =>
    match p.inputs[i]? with
    | some pin =>
      match pin.witnessUtxo with
      | some u => consensusVerify u.spk u.value p i
      | none => false
    | none => false

/-- Errors surfaced by `finalize`. -/
inductive FinalizeErr where
  | transactionFinalisation
  | inputVerification
  deriving DecidableEq

/-- Embedding of `finalize`: run the Miniscript PSBT finalizer oracle
`msFinalize` in place (it returns the possibly-mutated PSBT together
with an optional error), then verify every input against the consensus
oracle.  No state is restored on error: the returned PSBT is always the
finalizer output. -/
def finalizeM (msFinalize : PsbtM → Option Unit × PsbtM)
    (consensusVerify : List Nat → Nat → PsbtM → Nat → Bool)
    (p : PsbtM) : Option FinalizeErr × PsbtM :=
  match msFinalize p with
  | (some _, p2) => (some .transactionFinalisation, p2)
  | (none, p2) =>
    if verifyInputsM consensusVerify p2 then (none, p2)
    else (some .inputVerification, p2)

/-! ## Decidability of the feerate predicate -/

instance (tbc : List CpfpTxInM) (tbcWeight tbcFees addedFeerate : Nat)
    (s : List CpfpTxInM) :
    Decidable (reachesTargetFeerate tbc tbcWeight tbcFees addedFeerate s) := by
  unfold reachesTargetFeerate; infer_instance

/-! ## Concrete example data used by the witnesses and counterexamples -/

/-- A 34-byte P2WSH scriptPubKey (witness program filled with 7). -/
def exSpkA : List Nat := 0 :: 32 :: List.replicate 32 7

/-- A second 34-byte P2WSH scriptPubKey (witness program filled with 9). -/
def exSpkB : List Nat := 0 :: 32 :: List.replicate 32 9

/-- The deposit of scenario S4: 234,632 sats with the 224 WU maximum
satisfaction weight of a 2-of-2 deposit script. -/
def exDeposit : DepositTxInM :=
  { txid := 1, vout := 0, value := 234632, spk := exSpkA, maxSatWeight := 224 }

def exUnvaultDesc : DerivedDescM := { spk := exSpkA }

def exCpfpDesc : DerivedDescM := { spk := exSpkB }

/-- To-be-CPFPed input for the change-branch feerate counterexample. -/
def exCeTbc1 : List CpfpTxInM :=
  [{ txid := 1, vout := 0, value := 20000, spk := exSpkA, satWeight := 4 }]

/-- The transaction `from_txins` builds on `exCeTbc1` with tbc weight
1000, tbc fees 0 and added feerate 1: a single change output of
20000 − 1381 sats. -/
def exCeTx1 : TxM :=
  { version := 2, lockTime := 0
    input := [{ txid := 1, vout := 0, scriptSig := [], sequence := RBF_SEQUENCE }]
    output := [{ value := 18619, spk := exSpkA }] }

/-- To-be-CPFPed input for the InsufficientFunds counterexample. -/
def exCeTbc2 : List CpfpTxInM :=
  [{ txid := 2, vout := 0, value := 100, spk := exSpkA, satWeight := 0 }]

/-- A large-value candidate whose satisfaction weight makes it a net
loss at the target feerate. -/
def exBigCoin : CpfpTxInM :=
  { txid := 3, vout := 0, value := 5000, spk := exSpkA, satWeight := 1000000 }

/-- A small-value, lightweight candidate that reaches the target on its
own. -/
def exTinyCoin : CpfpTxInM :=
  { txid := 4, vout := 0, value := 2000, spk := exSpkA, satWeight := 0 }

/-- A Spend unvault input of 50,000 sats. -/
def exUnvaultIn : UnvaultTxInM :=
  { txid := 5, vout := 0, value := 50000, spk := exSpkA, maxSatWeight := 200, sequence := 42 }

/-- A Spend destination output consuming the whole input value. -/
def exSpendOut : SpendTxOutM := { value := 50000, spk := exSpkA }

/-- The transaction `SpendTransaction::new` builds on `exUnvaultIn` and
`exSpendOut`: the CPFP output of 16 × 748 = 11,968 sats pushes the
output total above the input total. -/
def exSpendTx : TxM :=
  { version := TX_VERSION, lockTime := 0
    input := [{ txid := 5, vout := 0, scriptSig := [], sequence := 42 }]
    output := [{ value := 11968, spk := exSpkB }, { value := 50000, spk := exSpkA }] }

/-- An empty starting PSBT for the finalization example. -/
def exPsbtBase : PsbtM :=
  { tx := { version := 2, lockTime := 0, input := [], output := [] },
    inputs := [], outputs := [] }

/-- A PSBT whose single input has been sealed with a final script
witness, as left behind by the Miniscript finalizer. -/
def exPsbtFinal : PsbtM :=
  { tx := { version := 2, lockTime := 0,
            input := [{ txid := 9, vout := 0, scriptSig := [], sequence := RBF_SEQUENCE }],
            output := [] },
    inputs := [{ finalScriptWitness := some [[1]],
                 witnessUtxo := some { value := 1000, spk := exSpkA },
                 hasNonWitnessUtxo := false, witnessScript := none,
                 hasRedeemScript := false, sighashType := none,
                 sigs := [], bip32Nonempty := false }],
    outputs := [] }

/-- The ASCII bytes of the 66-hex-character compressed public key
02a489..8f35 of the source test vectors. -/
def exKeyBytes : List Nat :=
  [48, 50, 97, 52, 56, 57, 101, 48, 101, 97, 52, 50, 98, 53, 54, 49, 52, 56, 100,
   50, 49, 50, 100, 51, 50, 53, 98, 55, 99, 54, 55, 99, 54, 52, 54, 48, 52, 56,
   51, 102, 102, 57, 51, 49, 99, 51, 48, 51, 101, 97, 51, 49, 49, 101, 100, 102,
   101, 102, 54, 54, 55, 99, 56, 102, 51, 53]

/-- The ASCII bytes of the well-formed derived-key string
of the form open-bracket aabbccdd/0 close-bracket followed by the key. -/
def exGoodKeyStr : List Nat :=
  91 :: 97 :: 97 :: 98 :: 98 :: 99 :: 99 :: 100 :: 100 :: 47 :: 48 :: 93 :: exKeyBytes

/-- The same string with the byte 20 (a non-printable ASCII control
character) in place of the slash separating fingerprint and index: the
parser never inspects that byte position. -/
def exCtrlKeyStr : List Nat :=
  91 :: 97 :: 97 :: 98 :: 98 :: 99 :: 99 :: 100 :: 100 :: 20 :: 48 :: 93 :: exKeyBytes

/-- A constant SHA256 oracle used in the signing example: every
preimage hashes to 32 bytes of value 5. -/
def exSha (m : List Nat) : List Nat := List.replicate 32 5

/-- A constant BIP-143 digest oracle for the signing example. -/
def exBip143 (i : Nat) (script : List Nat) (value sht : Nat) : Nat := 7

/-- An always-accepting ECDSA verification oracle. -/
def exVerifyTrue (msg sig pk : Nat) : Bool := true

/-- A DER-encoding oracle for the signing example. -/
def exDer (sig : Nat) : List Nat := [48, 68, sig % 256]

/-- A well-formed unsigned P2WSH PSBT input: its previous txout
scriptPubKey is the P2WSH of its witness script under `exSha`. -/
def exSigInput : PsbtInputM :=
  { finalScriptWitness := none
    witnessUtxo := some { value := 100000, spk := 0 :: 32 :: List.replicate 32 5 }
    hasNonWitnessUtxo := false
    witnessScript := some [85]
    hasRedeemScript := false
    sighashType := some 1
    sigs := []
    bip32Nonempty := true }

/-- A PSBT carrying `exSigInput` as its only input. -/
def exPsbtSig : PsbtM :=
  { tx := exSpendTx, inputs := [exSigInput], outputs := [] }

/-! ## Theorems -/

/-- C6: `SpendTransaction::cpfp_txout` returns a CPFP output whose value
is exactly 16 times the witness-stripped weight of the transaction
assembled with the dummy CPFP output included, plus the sum of each
input's maximum satisfaction weight. -/
theorem spend_cpfp_txout_value (unvaultInputs : List UnvaultTxInM)
    (spendTxouts : List SpendTxOutM) (changeTxout : Option SpendTxOutM)
    (cpfpDesc : DerivedDescM) (lockTime : Nat) :
    (spendCpfpTxout unvaultInputs spendTxouts changeTxout cpfpDesc lockTime).value
      = 16 * (getWeight (spendDummyTx unvaultInputs spendTxouts changeTxout cpfpDesc lockTime)
              + totalSatWeight unvaultInputs) := by
  simp [spendCpfpTxout, spendDummyTx]
  ring

/-- C8: `finalize` first runs the Miniscript PSBT finalizer, then checks
every input against the consensus oracle; when the consensus check
fails, an error is returned but the resulting state is the
finalizer-mutated PSBT — nothing is restored. -/
theorem finalize_not_atomic (msFinalize : PsbtM → Option Unit × PsbtM)
    (consensusVerify : List Nat → Nat → PsbtM → Nat → Bool) (p p2 : PsbtM)
    (hfin : msFinalize p = (none, p2))
    (hver : verifyInputsM consensusVerify p2 = false) :
    finalizeM msFinalize consensusVerify p = (some .inputVerification, p2) := by
  simp [finalizeM, hfin, hver]

/-- C1: `UnvaultTransaction::new` computes fees as 6 sat/WU times the
witness-stripped weight of the assembled transaction plus the deposit
input's maximum satisfaction weight; it returns Dust exactly when
fees + 30,000 + 200,000 exceeds the deposit value, and otherwise (fees
within the insane-fee bound, the total weight within the standardness
assert, and an unvault value within MAX_MONEY) succeeds with exactly
two outputs: the Unvault output worth the deposit value minus fees
minus 30,000 sats and a CPFP output worth exactly 30,000 sats. -/
theorem unvault_new_spec (dep : DepositTxInM) (unvaultDesc cpfpDesc : DerivedDescM)
    (lockTime : Nat)
    (hfees : UNVAULT_TX_FEERATE
        * (getWeight (unvaultCreateTx dep unvaultDesc.spk cpfpDesc.spk U64_MAX U64_MAX lockTime)
           + dep.maxSatWeight) ≤ INSANE_FEES)
    (hweight : getWeight (unvaultCreateTx dep unvaultDesc.spk cpfpDesc.spk U64_MAX U64_MAX lockTime)
        + dep.maxSatWeight ≤ MAX_STANDARD_TX_WEIGHT) :
    (unvaultNew dep unvaultDesc cpfpDesc lockTime = .dust ↔
      dep.value < UNVAULT_TX_FEERATE
          * (getWeight (unvaultCreateTx dep unvaultDesc.spk cpfpDesc.spk U64_MAX U64_MAX lockTime)
             + dep.maxSatWeight) + UNVAULT_CPFP_VALUE + DUST_LIMIT) ∧
    (∀ fees, fees = UNVAULT_TX_FEERATE
          * (getWeight (unvaultCreateTx dep unvaultDesc.spk cpfpDesc.spk U64_MAX U64_MAX lockTime)
             + dep.maxSatWeight) →
      fees + UNVAULT_CPFP_VALUE + DUST_LIMIT ≤ dep.value →
      dep.value - fees - UNVAULT_CPFP_VALUE ≤ MAX_MONEY →
      ∃ tx, unvaultNew dep unvaultDesc cpfpDesc lockTime = .ok tx ∧
        tx.output = [{ value := dep.value - fees - UNVAULT_CPFP_VALUE, spk := unvaultDesc.spk },
                     { value := UNVAULT_CPFP_VALUE, spk := cpfpDesc.spk }]) := by
  unfold unvaultNew
  rw [if_neg (by omega), if_neg (by omega)]
  constructor
  · constructor
    · intro h
      by_contra hc
      rw [if_neg (by omega)] at h
      dsimp only [] at h
      split at h <;> simp_all
    · intro h
      rw [if_pos (by omega)]
  · intro fees hf h1 h2
    subst hf
    rw [if_neg (by omega), if_neg (by omega)]
    exact ⟨_, rfl, rfl⟩

/-- Witness for C1 at the S4 scenario deposit of 234,632 sats: the dust
branch is not taken and the builder succeeds with the 200,000 sat
Unvault output and the 30,000 sat CPFP output. -/
theorem unvault_new_spec_witness :
    (unvaultNew exDeposit exUnvaultDesc exCpfpDesc 0 = .dust ↔
      exDeposit.value < UNVAULT_TX_FEERATE
          * (getWeight (unvaultCreateTx exDeposit exUnvaultDesc.spk exCpfpDesc.spk
              U64_MAX U64_MAX 0) + exDeposit.maxSatWeight)
          + UNVAULT_CPFP_VALUE + DUST_LIMIT) ∧
    (∃ tx, unvaultNew exDeposit exUnvaultDesc exCpfpDesc 0 = .ok tx ∧
      tx.output = [{ value := 200000, spk := exUnvaultDesc.spk },
                   { value := UNVAULT_CPFP_VALUE, spk := exCpfpDesc.spk }]) := by
  have h := unvault_new_spec exDeposit exUnvaultDesc exCpfpDesc 0 (by decide) (by decide)
  refine ⟨h.1, ?_⟩
  have h2 := h.2 _ rfl (by decide) (by decide)
  simpa using h2

/-- Witness for C8: a one-input PSBT sealed by the finalizer oracle and
rejected by the consensus oracle; the error is returned together with
the mutated state, which differs from the initial one. -/
theorem finalize_not_atomic_witness :
    finalizeM (fun _ => (none, exPsbtFinal))
        (fun (_ : List Nat) (_ : Nat) (_ : PsbtM) (_ : Nat) => false) exPsbtBase
        = (some .inputVerification, exPsbtFinal)
      ∧ exPsbtFinal ≠ exPsbtBase := by
  exact ⟨finalize_not_atomic _ _ _ _ rfl (by decide), by decide⟩

/-- The parameter checks reject every condition listed by the spec. -/
theorem unvaultDescChecksFail_of_bad (ns nm t nc csv : Nat)
    (h : ns = 0 ∨ nm = 0 ∨ nc ≠ ns ∨ t > nm ∨ csv &&& SEQUENCE_LOCKTIME_MASK ≠ csv) :
    unvaultDescChecksFail ns nm t nc csv = true := by
  simp only [unvaultDescChecksFail, Bool.or_eq_true, beq_iff_eq, bne_iff_ne, ne_eq,
    decide_eq_true_eq]
  tauto

/-- C5: `UnvaultDescriptor::new` and `DerivedUnvaultDescriptor::new`
return BadParameters whenever the stakeholder set is empty, the manager
set is empty, the cosigner count differs from the stakeholder count,
the manager threshold exceeds the number of managers, or the CSV value
has any bit outside the low 16 bits set (which subsumes the disable
flag and the seconds type flag). -/
theorem unvault_descriptor_bad_params :
    (∀ (stakeholders managers : List GDescKey) (t : Nat) (cosigners : List GDescKey)
       (csv : Nat),
      (stakeholders = [] ∨ managers = [] ∨ cosigners.length ≠ stakeholders.length
        ∨ t > managers.length ∨ csv &&& SEQUENCE_LOCKTIME_MASK ≠ csv) →
      unvaultDescriptorNew stakeholders managers t cosigners csv = .error .badParameters) ∧
    (∀ (stakeholders managers : List Nat) (t : Nat) (cosigners : List Nat) (csv : Nat),
      (stakeholders = [] ∨ managers = [] ∨ cosigners.length ≠ stakeholders.length
        ∨ t > managers.length ∨ csv &&& SEQUENCE_LOCKTIME_MASK ≠ csv) →
      derivedUnvaultDescriptorNew stakeholders managers t cosigners csv
        = .error .badParameters) := by
  constructor
  · intro stakeholders managers t cosigners csv h
    unfold unvaultDescriptorNew
    rw [if_pos]
    exact unvaultDescChecksFail_of_bad _ _ _ _ _ (by
      rcases h with h | h | h | h | h
      · exact Or.inl (by simp [h])
      · exact Or.inr (Or.inl (by simp [h]))
      · exact Or.inr (Or.inr (Or.inl h))
      · exact Or.inr (Or.inr (Or.inr (Or.inl h)))
      · exact Or.inr (Or.inr (Or.inr (Or.inr h))))
  · intro stakeholders managers t cosigners csv h
    unfold derivedUnvaultDescriptorNew
    rw [if_pos]
    exact unvaultDescChecksFail_of_bad _ _ _ _ _ (by
      rcases h with h | h | h | h | h
      · exact Or.inl (by simp [h])
      · exact Or.inr (Or.inl (by simp [h]))
      · exact Or.inr (Or.inr (Or.inl h))
      · exact Or.inr (Or.inr (Or.inr (Or.inl h)))
      · exact Or.inr (Or.inr (Or.inr (Or.inr h))))

/-- Witness for C5: a construction attempt with a CSV carrying the
disable flag (a bit outside the low 16) is rejected with
BadParameters. -/
theorem unvault_descriptor_bad_params_witness :
    derivedUnvaultDescriptorNew [1, 2] [3] 1 [4, 5] 0x80000091 = .error .badParameters := by
  exact unvault_descriptor_bad_params.2 [1, 2] [3] 1 [4, 5] 0x80000091 (by
    refine Or.inr (Or.inr (Or.inr (Or.inr ?_)))
    decide)

/-- The CPFP selection loop only ever produces a built transaction or an
InsufficientFunds error, never one of the panic outcomes. -/
theorem cpfpLoop_no_panic (w f t : Nat) (stack : List CpfpTxInM) :
    ∀ (tx : TxM) (satW sum : Nat) (sel : List CpfpTxInM),
      cpfpLoop w f t tx satW sum sel stack ≠ .panicEmptyTbc ∧
      cpfpLoop w f t tx satW sum sel stack ≠ .panicDivByZero := by
  induction stack with
  | nil =>
    intro tx satW sum sel
    unfold cpfpLoop
    split
    · split <;> simp
    · simp
  | cons c rest ih =>
    intro tx satW sum sel
    unfold cpfpLoop
    split
    · split <;> simp
    · exact ih _ _ _ _

/-- Unfolding equation of the selection loop when the stop condition is
not yet met and candidates remain. -/
theorem cpfpLoop_cons_eq (w f t : Nat) (tx : TxM) (satW sum : Nat)
    (sel : List CpfpTxInM) (c : CpfpTxInM) (rest : List CpfpTxInM)
    (h : ¬ (sum > cpfpFeesNeeded w f t tx satW
        ∨ sum > cpfpFeesNeeded w f t (cpfpOprTxOf tx) satW)) :
    cpfpLoop w f t tx satW sum sel (c :: rest)
      = cpfpLoop w f t { tx with input := tx.input ++ [mkCpfpTxIn c] }
          (satW + c.satWeight) (sum + c.value) (sel ++ [c]) rest := by
  rw [cpfpLoop, if_neg h]

/-- C10: `CpfpTransaction::from_txins` panics on its assert when handed
an empty to-be-CPFPed vector, panics with a division by zero when the
to-be-CPFPed weight is 0, and for every call with a non-empty vector
and a positive weight neither panic path is reachable. -/
theorem cpfp_from_txins_panics :
    (∀ (tbcWeight tbcFees addedFeerate : Nat) (avail : List CpfpTxInM),
      cpfpFromTxins [] tbcWeight tbcFees addedFeerate avail = .panicEmptyTbc) ∧
    (∀ (tbc : List CpfpTxInM) (tbcFees addedFeerate : Nat) (avail : List CpfpTxInM),
      tbc ≠ [] → cpfpFromTxins tbc 0 tbcFees addedFeerate avail = .panicDivByZero) ∧
    (∀ (tbc : List CpfpTxInM) (tbcWeight tbcFees addedFeerate : Nat)
       (avail : List CpfpTxInM), tbc ≠ [] → 0 < tbcWeight →
      cpfpFromTxins tbc tbcWeight tbcFees addedFeerate avail ≠ .panicEmptyTbc ∧
      cpfpFromTxins tbc tbcWeight tbcFees addedFeerate avail ≠ .panicDivByZero) := by
  refine ⟨fun _ _ _ _ => rfl, ?_, ?_⟩
  · intro tbc tbcFees addedFeerate avail h
    match tbc with
    | c :: rest => simp [cpfpFromTxins]
  · intro tbc tbcWeight tbcFees addedFeerate avail h hw
    match tbc with
    | c :: rest =>
      have key : cpfpFromTxins (c :: rest) tbcWeight tbcFees addedFeerate avail
          = cpfpLoop tbcWeight tbcFees (targetFeerateOf tbcWeight tbcFees addedFeerate)
            (cpfpInitTx c rest) (cpfpSumSat (c :: rest)) (cpfpSumValues (c :: rest))
            (c :: rest) ((sortByValue avail).reverse) := by
        simp only [cpfpFromTxins]
        rw [if_neg (by omega)]
      rw [key]
      exact cpfpLoop_no_panic _ _ _ _ _ _ _ _

/-- Witness for C10: a singleton to-be-CPFPed list with weight 0 hits
the division-by-zero panic, and with weight 1000 neither panic is
reachable. -/
theorem cpfp_from_txins_panics_witness :
    cpfpFromTxins [exTinyCoin] 0 0 0 [] = .panicDivByZero ∧
    cpfpFromTxins [exTinyCoin] 1000 0 0 [] ≠ .panicEmptyTbc := by
  exact ⟨cpfp_from_txins_panics.2.1 [exTinyCoin] 0 0 [] (by decide),
    (cpfp_from_txins_panics.2.2 [exTinyCoin] 1000 0 0 [] (by decide) (by decide)).1⟩

/-! ### CPFP selection: helper lemmas -/

/-- Variable-length integer encodings never shrink as the value grows. -/
theorem varintLen_mono {m n : Nat} (h : m ≤ n) : varintLen m ≤ varintLen n := by
  unfold varintLen
  split_ifs <;> omega

/-- Patching the first output value does not change the weight. -/
theorem getWeight_setOutput0Value (tx : TxM) (v : Nat) :
    getWeight (setOutput0Value tx v) = getWeight tx := by
  unfold getWeight txSize setOutput0Value
  cases h : tx.output with
  | nil => simp [h]
  | cons o rest => simp [h, txOutSize]

/-- Replacing the first output with one whose script is no longer does
not increase the weight. -/
theorem getWeight_setOutput0_le (tx : TxM) (v : Nat) (s : List Nat) (o : TxOutM)
    (ho : tx.output = [o]) (hs : s.length ≤ o.spk.length) :
    getWeight (setOutput0 tx v s) ≤ getWeight tx := by
  unfold getWeight txSize setOutput0
  rw [ho]
  simp only [ho, List.map_cons, List.map_nil, List.sum_cons, List.sum_nil, List.length_cons,
    List.length_nil]
  have h1 := varintLen_mono hs
  unfold txOutSize
  dsimp only
  omega

/-- The OP_RETURN scripts of the CPFP output are at most 24 bytes. -/
theorem opReturnScriptFor_length_le (n : Nat) : (opReturnScriptFor n).length ≤ 24 := by
  unfold opReturnScriptFor
  split <;> simp

/-- Value sums distribute over appending. -/
theorem cpfpSumValues_append (l1 l2 : List CpfpTxInM) :
    cpfpSumValues (l1 ++ l2) = cpfpSumValues l1 + cpfpSumValues l2 := by
  simp [cpfpSumValues]

/-- Satisfaction-weight sums distribute over appending. -/
theorem cpfpSumSat_append (l1 l2 : List CpfpTxInM) :
    cpfpSumSat (l1 ++ l2) = cpfpSumSat l1 + cpfpSumSat l2 := by
  simp [cpfpSumSat]

/-- Sorted insertion preserves the value sum. -/
theorem cpfpSumValues_insertByValue (c : CpfpTxInM) (l : List CpfpTxInM) :
    cpfpSumValues (insertByValue c l) = c.value + cpfpSumValues l := by
  induction l with
  | nil => simp [insertByValue, cpfpSumValues]
  | cons d rest ih =>
    unfold insertByValue
    split
    · simp [cpfpSumValues]
    · simp only [cpfpSumValues, List.map_cons, List.sum_cons] at ih ⊢
      omega

/-- Sorting preserves the value sum. -/
theorem cpfpSumValues_sortByValue (l : List CpfpTxInM) :
    cpfpSumValues (sortByValue l) = cpfpSumValues l := by
  induction l with
  | nil => rfl
  | cons c rest ih =>
    unfold sortByValue
    rw [cpfpSumValues_insertByValue, ih]
    simp [cpfpSumValues]

/-- Reversal preserves the value sum. -/
theorem cpfpSumValues_reverse (l : List CpfpTxInM) :
    cpfpSumValues l.reverse = cpfpSumValues l := by
  simp [cpfpSumValues, List.sum_reverse]

/-- Sorted insertion preserves the satisfaction-weight sum. -/
theorem cpfpSumSat_insertByValue (c : CpfpTxInM) (l : List CpfpTxInM) :
    cpfpSumSat (insertByValue c l) = c.satWeight + cpfpSumSat l := by
  induction l with
  | nil => simp [insertByValue, cpfpSumSat]
  | cons d rest ih =>
    unfold insertByValue
    split
    · simp [cpfpSumSat]
    · simp only [cpfpSumSat, List.map_cons, List.sum_cons] at ih ⊢
      omega

/-- Sorting preserves the satisfaction-weight sum. -/
theorem cpfpSumSat_sortByValue (l : List CpfpTxInM) :
    cpfpSumSat (sortByValue l) = cpfpSumSat l := by
  induction l with
  | nil => rfl
  | cons c rest ih =>
    unfold sortByValue
    rw [cpfpSumSat_insertByValue, ih]
    simp [cpfpSumSat]

/-- Reversal preserves the satisfaction-weight sum. -/
theorem cpfpSumSat_reverse (l : List CpfpTxInM) :
    cpfpSumSat l.reverse = cpfpSumSat l := by
  simp [cpfpSumSat, List.sum_reverse]

/-- Sorted insertion adds one element. -/
theorem length_insertByValue (c : CpfpTxInM) (l : List CpfpTxInM) :
    (insertByValue c l).length = l.length + 1 := by
  induction l with
  | nil => rfl
  | cons d rest ih =>
    unfold insertByValue
    split
    · simp
    · simp [ih]

/-- Sorting preserves the length. -/
theorem length_sortByValue (l : List CpfpTxInM) :
    (sortByValue l).length = l.length := by
  induction l with
  | nil => rfl
  | cons c rest ih =>
    unfold sortByValue
    rw [length_insertByValue, ih]
    simp

/-- Every built CPFP txin serializes to 41 bytes. -/
theorem inputsSize_mkCpfpTxIn (l : List CpfpTxInM) :
    ((l.map mkCpfpTxIn).map txInSize).sum = 41 * l.length := by
  induction l with
  | nil => rfl
  | cons c rest ih =>
    simp only [List.map_cons, List.sum_cons, ih, List.length_cons]
    unfold txInSize mkCpfpTxIn varintLen
    norm_num
    omega

/-- The weight of the all-in OP_RETURN package template only depends on
how many txins it spends. -/
theorem getWeight_cpfpOpReturnTx_congr (l1 l2 : List CpfpTxInM)
    (h : l1.length = l2.length) :
    getWeight (cpfpOpReturnTx l1) = getWeight (cpfpOpReturnTx l2) := by
  unfold getWeight txSize cpfpOpReturnTx
  rw [inputsSize_mkCpfpTxIn, inputsSize_mkCpfpTxIn]
  simp [h]

/-- The last element of a non-empty list defaulted with its own head is
a member of the list. -/
theorem getLastD_mem {α : Type} (d : α) (l : List α) : l.getLastD d ∈ d :: l := by
  cases l with
  | nil => simp
  | cons e es =>
    have h : (e :: es).getLastD d = (e :: es).getLast (by simp) := by
      rw [List.getLastD_eq_getLast?, List.getLast?_eq_getLast _ (by simp)]
      rfl
    rw [h]
    exact List.mem_cons_of_mem _ (List.getLast_mem (by simp))

/-- Along the selection loop, a successful outcome always pays at least
the floored fee requirement of the final package at the target feerate:
the package fees (to-be-CPFPed fees plus CPFP transaction fees) are at
least `target * package_weight / 1000`.  The template output must be the
single dummy change txout, whose script is a 34-byte P2WSH and in
particular no shorter than the OP_RETURN alternative. -/
theorem cpfpLoop_ok_feerate (w f t : Nat) (stack : List CpfpTxInM) :
    ∀ (tx : TxM) (sel : List CpfpTxInM) (o : TxOutM) (tx2 : TxM) (sel2 : List CpfpTxInM),
      tx.output = [o] → 24 ≤ o.spk.length →
      cpfpLoop w f t tx (cpfpSumSat sel) (cpfpSumValues sel) sel stack = .ok tx2 sel2 →
      t * (getWeight tx2 + cpfpSumSat sel2 + w) / 1000
        ≤ f + (cpfpSumValues sel2 - outputsValueSum tx2) := by
  induction stack with
  | nil =>
    intro tx sel o tx2 sel2 ho hlen hres
    rw [cpfpLoop] at hres
    split at hres
    · rename_i hcond
      split at hres
      · rename_i hchange
        rw [CpfpResult.ok.injEq] at hres
        obtain ⟨h1, h2⟩ := hres
        subst h1 h2
        rw [getWeight_setOutput0Value]
        have hout : outputsValueSum (setOutput0Value tx
            (cpfpSumValues sel - cpfpFeesNeeded w f t tx (cpfpSumSat sel)))
            = cpfpSumValues sel - cpfpFeesNeeded w f t tx (cpfpSumSat sel) := by
          unfold outputsValueSum setOutput0Value
          rw [ho]
          simp
        rw [hout]
        unfold cpfpFeesNeeded at hchange ⊢
        omega
      · rename_i hchange
        rw [CpfpResult.ok.injEq] at hres
        obtain ⟨h1, h2⟩ := hres
        subst h1 h2
        have hout : outputsValueSum (cpfpOprTxOf tx) = 0 := by
          unfold outputsValueSum cpfpOprTxOf setOutput0
          rw [ho]
          simp
        rw [hout]
        have hwle : getWeight (cpfpOprTxOf tx) ≤ getWeight tx := by
          unfold cpfpOprTxOf
          exact getWeight_setOutput0_le tx 0 _ o ho
            (le_trans (opReturnScriptFor_length_le _) hlen)
        have hdiv : t * (getWeight (cpfpOprTxOf tx) + cpfpSumSat sel + w) / 1000
            ≤ t * (getWeight tx + cpfpSumSat sel + w) / 1000 :=
          Nat.div_le_div_right (Nat.mul_le_mul_left _ (by omega))
        unfold cpfpFeesNeeded at hcond
        omega
    · simp at hres
  | cons c rest ih =>
    intro tx sel o tx2 sel2 ho hlen hres
    rw [cpfpLoop] at hres
    split at hres
    · rename_i hcond
      split at hres
      · rename_i hchange
        rw [CpfpResult.ok.injEq] at hres
        obtain ⟨h1, h2⟩ := hres
        subst h1 h2
        rw [getWeight_setOutput0Value]
        have hout : outputsValueSum (setOutput0Value tx
            (cpfpSumValues sel - cpfpFeesNeeded w f t tx (cpfpSumSat sel)))
            = cpfpSumValues sel - cpfpFeesNeeded w f t tx (cpfpSumSat sel) := by
          unfold outputsValueSum setOutput0Value
          rw [ho]
          simp
        rw [hout]
        unfold cpfpFeesNeeded at hchange ⊢
        omega
      · rename_i hchange
        rw [CpfpResult.ok.injEq] at hres
        obtain ⟨h1, h2⟩ := hres
        subst h1 h2
        have hout : outputsValueSum (cpfpOprTxOf tx) = 0 := by
          unfold outputsValueSum cpfpOprTxOf setOutput0
          rw [ho]
          simp
        rw [hout]
        have hwle : getWeight (cpfpOprTxOf tx) ≤ getWeight tx := by
          unfold cpfpOprTxOf
          exact getWeight_setOutput0_le tx 0 _ o ho
            (le_trans (opReturnScriptFor_length_le _) hlen)
        have hdiv : t * (getWeight (cpfpOprTxOf tx) + cpfpSumSat sel + w) / 1000
            ≤ t * (getWeight tx + cpfpSumSat sel + w) / 1000 :=
          Nat.div_le_div_right (Nat.mul_le_mul_left _ (by omega))
        unfold cpfpFeesNeeded at hcond
        omega
    · rw [show cpfpSumSat sel + c.satWeight = cpfpSumSat (sel ++ [c]) by
          rw [cpfpSumSat_append]; simp [cpfpSumSat],
        show cpfpSumValues sel + c.value = cpfpSumValues (sel ++ [c]) by
          rw [cpfpSumValues_append]; simp [cpfpSumValues]] at hres
      exact ih { tx with input := tx.input ++ [mkCpfpTxIn c] } (sel ++ [c]) o tx2 sel2
        ho hlen hres

/-- Along the selection loop, an InsufficientFunds outcome means that
even after consuming every remaining candidate, the accumulated input
value does not exceed the fees needed by the final all-in OP_RETURN
package at the target feerate. -/
theorem cpfpLoop_insufficient (w f t : Nat) (stack : List CpfpTxInM) :
    ∀ (tx : TxM) (satW sum : Nat) (sel : List CpfpTxInM),
      cpfpLoop w f t tx satW sum sel stack = .insufficientFunds →
      sum + cpfpSumValues stack
        ≤ cpfpFeesNeeded w f t
            (cpfpOprTxOf { tx with input := tx.input ++ stack.map mkCpfpTxIn })
            (satW + cpfpSumSat stack) := by
  induction stack with
  | nil =>
    intro tx satW sum sel hres
    rw [cpfpLoop] at hres
    split at hres
    · split at hres <;> simp at hres
    · rename_i hcond
      push_neg at hcond
      simp only [cpfpSumValues, cpfpSumSat, List.map_nil, List.sum_nil, List.append_nil,
        Nat.add_zero]
      exact hcond.2
  | cons c rest ih =>
    intro tx satW sum sel hres
    rw [cpfpLoop] at hres
    split at hres
    · split at hres <;> simp at hres
    · have h := ih { tx with input := tx.input ++ [mkCpfpTxIn c] }
        (satW + c.satWeight) (sum + c.value) (sel ++ [c]) hres
      dsimp only at h ⊢
      have harg : (tx.input ++ [mkCpfpTxIn c]) ++ rest.map mkCpfpTxIn
          = tx.input ++ (c :: rest).map mkCpfpTxIn := by
        simp
      rw [harg] at h
      have hsat : satW + c.satWeight + cpfpSumSat rest = satW + cpfpSumSat (c :: rest) := by
        simp only [cpfpSumSat, List.map_cons, List.sum_cons]
        omega
      rw [hsat] at h
      have hval : cpfpSumValues (c :: rest) = c.value + cpfpSumValues rest := by
        simp [cpfpSumValues]
      omega

/-- The Amount subtraction `target * package_weight / 1000 - tbc_fees`
of the source never underflows: the target feerate already covers the
to-be-CPFPed fees over the to-be-CPFPed weight alone, and the package
weight only adds to it. -/
theorem cpfp_fees_needed_ge_tbc_fees (tbcWeight tbcFees target : Nat) (tx : TxM)
    (satW : Nat) (hw : 0 < tbcWeight)
    (ht : 1000 * (tbcFees + tbcWeight) / tbcWeight ≤ target) :
    tbcFees ≤ target * (getWeight tx + satW + tbcWeight) / 1000 := by
  have h1 : tbcWeight * (1000 * (tbcFees + tbcWeight) / tbcWeight)
      + 1000 * (tbcFees + tbcWeight) % tbcWeight = 1000 * (tbcFees + tbcWeight) :=
    Nat.div_add_mod _ _
  have h2 : 1000 * (tbcFees + tbcWeight) % tbcWeight < tbcWeight :=
    Nat.mod_lt _ hw
  have h3 : (1000 * (tbcFees + tbcWeight) / tbcWeight) * tbcWeight
      ≤ target * (getWeight tx + satW + tbcWeight) :=
    Nat.mul_le_mul ht (by omega)
  have h4 : (1000 * (tbcFees + tbcWeight) / tbcWeight) * tbcWeight
      = tbcWeight * (1000 * (tbcFees + tbcWeight) / tbcWeight) := Nat.mul_comm _ _
  rw [Nat.le_div_iff_mul_le (by norm_num)]
  omega

/-- The initial template extended with extra candidate inputs and
switched to the OP_RETURN output is exactly the all-in OP_RETURN
package template. -/
theorem cpfpOprTxOf_init_append (c0 : CpfpTxInM) (rest cands : List CpfpTxInM) :
    cpfpOprTxOf { cpfpInitTx c0 rest with
        input := (cpfpInitTx c0 rest).input ++ cands.map mkCpfpTxIn }
      = cpfpOpReturnTx ((c0 :: rest) ++ cands) := by
  unfold cpfpOprTxOf cpfpInitTx cpfpOpReturnTx setOutput0
  simp [List.map_append]

/-- C2 (amended): whenever `CpfpTransaction::from_txins` returns Ok, the
resulting package pays at least `target_feerate * package_weight / 1000`
sats of fees, i.e. its effective feerate is within one floored sat/kWU
of the requested target (the to-be-CPFPed prevouts being the 34-byte
P2WSH CPFP txouts); and whenever it returns InsufficientFunds, even the
package consuming every candidate UTxO and burning the whole input sum
through an OP_RETURN output stays below target: its input sum does not
exceed the needed fees. -/
theorem cpfp_from_txins_feerate (tbc : List CpfpTxInM)
    (tbcWeight tbcFees addedFeerate : Nat) (avail : List CpfpTxInM)
    (hspk : ∀ c ∈ tbc, 24 ≤ c.spk.length) :
    (∀ (tx : TxM) (sel : List CpfpTxInM),
      cpfpFromTxins tbc tbcWeight tbcFees addedFeerate avail = .ok tx sel →
      targetFeerateOf tbcWeight tbcFees addedFeerate
          * (getWeight tx + cpfpSumSat sel + tbcWeight) / 1000
        ≤ tbcFees + (cpfpSumValues sel - outputsValueSum tx)) ∧
    (cpfpFromTxins tbc tbcWeight tbcFees addedFeerate avail = .insufficientFunds →
      cpfpSumValues tbc + cpfpSumValues avail
        ≤ cpfpFeesNeeded tbcWeight tbcFees (targetFeerateOf tbcWeight tbcFees addedFeerate)
            (cpfpOpReturnTx (tbc ++ avail)) (cpfpSumSat tbc + cpfpSumSat avail)) := by
  match tbc with
  | [] =>
    constructor
    · intro tx sel h
      simp [cpfpFromTxins] at h
    · intro h
      simp [cpfpFromTxins] at h
  | c0 :: rest =>
    by_cases hw : tbcWeight = 0
    · subst hw
      constructor
      · intro tx sel h
        simp [cpfpFromTxins] at h
      · intro h
        simp [cpfpFromTxins] at h
    · have heq : cpfpFromTxins (c0 :: rest) tbcWeight tbcFees addedFeerate avail
          = cpfpLoop tbcWeight tbcFees (targetFeerateOf tbcWeight tbcFees addedFeerate)
            (cpfpInitTx c0 rest) (cpfpSumSat (c0 :: rest)) (cpfpSumValues (c0 :: rest))
            (c0 :: rest) ((sortByValue avail).reverse) := by
        simp only [cpfpFromTxins]
        rw [if_neg hw]
      have hlast : 24 ≤ ((c0 :: rest).getLastD c0).spk.length := by
        apply hspk
        have h := getLastD_mem c0 rest
        rw [List.getLastD_cons]
        rw [List.mem_cons] at h
        rcases h with h | h
        · rw [h]
          exact List.mem_cons_self _ _
        · exact List.mem_cons_of_mem _ h
      constructor
      · intro tx sel h
        rw [heq] at h
        exact cpfpLoop_ok_feerate tbcWeight tbcFees
          (targetFeerateOf tbcWeight tbcFees addedFeerate) _ (cpfpInitTx c0 rest)
          (c0 :: rest) _ tx sel rfl hlast h
      · intro h
        rw [heq] at h
        have h2 := cpfpLoop_insufficient tbcWeight tbcFees
          (targetFeerateOf tbcWeight tbcFees addedFeerate) _ (cpfpInitTx c0 rest)
          _ _ _ h
        rw [cpfpOprTxOf_init_append] at h2
        rw [cpfpSumValues_reverse, cpfpSumValues_sortByValue,
          cpfpSumSat_reverse, cpfpSumSat_sortByValue] at h2
        have hcongr := getWeight_cpfpOpReturnTx_congr ((c0 :: rest) ++ (sortByValue avail).reverse)
          ((c0 :: rest) ++ avail) (by simp [length_sortByValue])
        unfold cpfpFeesNeeded at h2 ⊢
        rw [hcongr] at h2
        exact h2

/-- Witness for the amended C2 at the change-branch example: the
package fees match the floored requirement exactly. -/
theorem cpfp_from_txins_feerate_witness :
    targetFeerateOf 1000 0 1 * (getWeight exCeTx1 + cpfpSumSat exCeTbc1 + 1000) / 1000
      ≤ 0 + (cpfpSumValues exCeTbc1 - outputsValueSum exCeTx1) := by
  exact (cpfp_from_txins_feerate exCeTbc1 1000 0 1 [] (by decide)).1 exCeTx1 exCeTbc1
    (by decide)

/-- Counterexample for C2 as stated.  First, a successful call whose
package feerate falls strictly below the requested target (by the
flooring of the needed fees): one 20,000 sat CPFP coin, to-be-CPFPed
weight 1000 WU and added feerate 1 yields a change-output package whose
cross-multiplied feerate comparison fails.  Second, a call that fails
with InsufficientFunds although the subset consisting of the small
lightweight candidate alone reaches the target: largest-first selection
is forced to include a heavy candidate whose marginal fee cost exceeds
its value. -/
theorem cpfp_from_txins_claim_false :
    (cpfpFromTxins exCeTbc1 1000 0 1 [] = .ok exCeTx1 exCeTbc1 ∧
      1000 * (0 + (cpfpSumValues exCeTbc1 - outputsValueSum exCeTx1))
        < targetFeerateOf 1000 0 1 * (getWeight exCeTx1 + cpfpSumSat exCeTbc1 + 1000)) ∧
    (cpfpFromTxins exCeTbc2 1000 0 0 [exBigCoin, exTinyCoin] = .insufficientFunds ∧
      [exTinyCoin].Sublist [exBigCoin, exTinyCoin] ∧
      reachesTargetFeerate exCeTbc2 1000 0 0 [exTinyCoin]) ∧
    ¬ cpfpClaimOkPart ∧ ¬ cpfpClaimErrPart := by
  refine ⟨⟨by decide, by decide⟩, ⟨by decide, by decide, by decide⟩, ?_, ?_⟩
  · intro h
    have h2 := h exCeTbc1 1000 0 1 [] exCeTx1 exCeTbc1 (by decide)
    revert h2
    decide
  · intro h
    have h2 := h exCeTbc2 1000 0 0 [exBigCoin, exTinyCoin] (by decide) [exTinyCoin]
      (by decide)
    exact h2 (by decide)

/-- C7 (amended): every transaction built by `SpendTransaction::new`
pays out, across its destination and change outputs (the CPFP output is
not counted by the NegativeFees check), no more than it consumes, and
its witness-stripped weight plus the total maximum satisfaction weight
stays within 400,000 WU; every PSBT accepted by
`SpendTransaction::from_raw_psbt` also satisfies the 400,000 WU bound
on its witness-stripped weight plus the accumulated maximum
satisfaction weight of its non-final inputs. -/
theorem spend_new_and_parse_invariants :
    (∀ (dustValue : List Nat → Nat) (unvaultInputs : List UnvaultTxInM)
       (spendTxouts : List SpendTxOutM) (changeTxout : Option SpendTxOutM)
       (cpfpDesc : DerivedDescM) (lockTime : Nat) (insaneFeeCheck : Bool) (tx : TxM),
      spendNew dustValue unvaultInputs spendTxouts changeTxout cpfpDesc lockTime
          insaneFeeCheck = .ok tx →
      spendValueOut spendTxouts changeTxout ≤ spendValueIn unvaultInputs ∧
      totalSatWeight unvaultInputs + getWeight tx ≤ MAX_STANDARD_TX_WEIGHT) ∧
    (∀ (sha : List Nat → List Nat) (msMaxSat : List Nat → Option Nat) (p p2 : PsbtM),
      spendFromPsbt sha msMaxSat p = .ok p2 →
      ∃ msw, spendInputsMaxSat sha msMaxSat p2.inputs = Except.ok msw ∧
        getWeight p2.tx + msw ≤ MAX_STANDARD_TX_WEIGHT) := by
  constructor
  · intro dustValue unvaultInputs spendTxouts changeTxout cpfpDesc lockTime insaneFeeCheck
      tx h
    unfold spendNew at h
    split at h
    · simp at h
    · dsimp only at h
      split at h
      · simp at h
      · split at h
        · simp at h
        · split at h
          · simp at h
          · split at h
            · simp at h
            · split at h
              · simp at h
              · split at h
                · simp at h
                · rename_i hdup hdust1 hdust2 hlarge hamount hneg hfee
                  rw [SpendNewResult.ok.injEq] at h
                  subst h
                  exact ⟨by omega, by omega⟩
  · intro sha msMaxSat p p2 h
    unfold spendFromPsbt at h
    split at h
    · simp at h
    · split at h
      · simp at h
      · split at h
        · simp at h
        · rename_i hsan hempty msw hmax
          dsimp only at h
          split at h
          · simp at h
          · split at h
            · simp at h
            · split at h
              · simp at h
              · rename_i hder1 hder2 hlarge
                rw [Except.ok.injEq] at h
                subst h
                exact ⟨msw, hmax, by omega⟩

/-- Witness for the amended C7 at the concrete successful build. -/
theorem spend_new_and_parse_invariants_witness :
    spendValueOut [exSpendOut] none ≤ spendValueIn [exUnvaultIn] ∧
    totalSatWeight [exUnvaultIn] + getWeight exSpendTx ≤ MAX_STANDARD_TX_WEIGHT := by
  exact spend_new_and_parse_invariants.1 (fun _ => 330) [exUnvaultIn] [exSpendOut] none
    exCpfpDesc 0 true exSpendTx (by decide)

/-- Counterexample for C7 as stated: a successful
`SpendTransaction::new` call whose outputs, once the mandatory CPFP
output is counted, sum to strictly more than its inputs — the
NegativeFees check only compares the inputs against the destination and
change outputs. -/
theorem spend_new_fees_claim_false :
    spendNew (fun _ => 330) [exUnvaultIn] [exSpendOut] none exCpfpDesc 0 true
        = .ok exSpendTx ∧
    spendValueIn [exUnvaultIn] < outputsValueSum exSpendTx := by
  exact ⟨by decide, by decide⟩

/-- A parsed child number is always below 2^31, hardened or not. -/
theorem childNumberFromStr_lt (t : List Nat) (hd : Bool) (v : Nat)
    (h : childNumberFromStr t = some (hd, v)) : v < 2147483648 := by
  unfold childNumberFromStr at h
  dsimp only at h
  split at h
  · split at h
    · split at h
      · rw [Option.some.injEq, Prod.mk.injEq] at h
        omega
      · simp at h
    · simp at h
  · split at h
    · split at h
      · rw [Option.some.injEq, Prod.mk.injEq] at h
        omega
      · simp at h
    · simp at h

/-- C9 (amended): every string accepted by
`DerivedPublicKey::from_str` has total length at least 78, begins with
an opening bracket, contains only bytes in the range 20..=127 (a
superset of printable ASCII that also admits the control characters
20..=31 and 127), and carries a non-hardened derivation index strictly
below 2^31. -/
theorem derived_pubkey_from_str_spec (s : List Nat) (r : DerivedPkM)
    (h : derivedPublicKeyFromStr s = some r) :
    78 ≤ s.length ∧ s.head? = some 91 ∧ (∀ b ∈ s, 20 ≤ b ∧ b ≤ 127) ∧
    r.index < 2147483648 := by
  unfold derivedPublicKeyFromStr at h
  split at h
  · simp at h
  · split at h
    · simp at h
    · split at h
      · simp at h
      · rename_i hlen hrange hhead
        refine ⟨by omega, not_not.mp hhead, ?_, ?_⟩
        · intro b hb
          by_contra hc
          rw [List.any_eq_true] at hrange
          refine absurd ⟨b, hb, ?_⟩ hrange
          simp only [Bool.or_eq_true, decide_eq_true_eq]
          omega
        · split at h
          · simp at h
          · split at h
            · simp at h
            · split at h
              · simp at h
              · split at h
                · simp at h
                · split at h
                  · simp at h
                  · rename_i hardened idx hchild
                    split at h
                    · simp at h
                    · split at h
                      · rw [Option.some.injEq] at h
                        subst h
                        exact childNumberFromStr_lt _ _ _ hchild
                      · simp at h

/-- Witness for the amended C9 at the well-formed key string. -/
theorem derived_pubkey_from_str_spec_witness :
    78 ≤ exGoodKeyStr.length ∧ exGoodKeyStr.head? = some 91 ∧
    (∀ b ∈ exGoodKeyStr, 20 ≤ b ∧ b ≤ 127) ∧
    ({ fingerprint := [97, 97, 98, 98, 99, 99, 100, 100], index := 0,
       keyBytes := exKeyBytes } : DerivedPkM).index < 2147483648 :=
  derived_pubkey_from_str_spec exGoodKeyStr _ (by decide)

/-- Counterexample for C9 as stated: the parser accepts a 78-byte
string containing the byte 20, a non-printable ASCII control
character, in place of the slash separating fingerprint and index:
the byte-range filter admits 20..=31 and 127, and the byte between
the fingerprint and the index is never inspected. -/
theorem derived_pubkey_printable_claim_false :
    derivedPublicKeyFromStr exCtrlKeyStr
        = some { fingerprint := [97, 97, 98, 98, 99, 99, 100, 100], index := 0,
                 keyBytes := exKeyBytes } ∧
    (∃ b ∈ exCtrlKeyStr, b < 32) := by
  exact ⟨by decide, by decide⟩

/-! ### Unvault descriptor introspection: computation lemmas -/

/-- Lifting a list of bare keys. -/
theorem liftPolList_map_key (l : List Nat) :
    liftPolList (l.map CPol.key) = l.map SemPol.key := by
  induction l with
  | nil => rfl
  | cons k rest ih => simp [liftPolList, liftPol, ih]

/-- Normalizing a list of bare keys. -/
theorem normalizedList_map_key (l : List Nat) :
    normalizedList (l.map SemPol.key) = l.map SemPol.key := by
  induction l with
  | nil => rfl
  | cons k rest ih => simp [normalizedList, normalized, ih]

/-- Key fragments pass through the flattening untouched. -/
theorem flattenSubs_keys_append (a b : Bool) (l : List Nat) (rest : List SemPol) :
    flattenSubs a b (l.map SemPol.key ++ rest) = l.map SemPol.key ++ flattenSubs a b rest := by
  induction l with
  | nil => rfl
  | cons k krest ih => simp [flattenSubs, ih]

/-- Flattening a list of bare keys. -/
theorem flattenSubs_keys (a b : Bool) (l : List Nat) :
    flattenSubs a b (l.map SemPol.key) = l.map SemPol.key := by
  have h := flattenSubs_keys_append a b l []
  rw [List.append_nil] at h
  rw [h]
  simp [flattenSubs]

/-- The singleton collapse does not fire on longer lists. -/
theorem collapseSingle_ne_one (m : Nat) (ret : List SemPol) (h : ret.length ≠ 1) :
    collapseSingle m ret = .thresh m ret := by
  match ret with
  | [] => rfl
  | [x] => exact absurd (by simp : ([x] : List SemPol).length = 1) h
  | x :: y :: rest => rfl

/-- No key fragment is an `Older`. -/
theorem any_isOlder_keys (l : List Nat) :
    (l.map SemPol.key).any isOlderPol = false := by
  induction l with
  | nil => rfl
  | cons k rest ih => simp [isOlderPol, ih]

/-- No key fragment is a threshold. -/
theorem findSome_threshOf_keys_append (l : List Nat) (rest : List SemPol) :
    (l.map SemPol.key ++ rest).findSome? threshOf = rest.findSome? threshOf := by
  induction l with
  | nil => rfl
  | cons k krest ih => simpa [threshOf] using ih

/-- Concrete policies made of keys carry no timelock. -/
theorem csvValueOfList_map_key (l : List Nat) :
    csvValueOfList (l.map CPol.key) = none := by
  induction l with
  | nil => rfl
  | cons k rest ih => simpa [csvValueOfList, csvValueOf, Option.orElse] using ih

/-- The unique timelock of the Unvault policy is its CSV value. -/
theorem csvValueOf_unvaultPolicy (stks mans cosigs : List Nat) (t csv : Nat) :
    csvValueOf (unvaultPolicy stks mans t cosigs csv) = some csv := by
  unfold unvaultPolicy
  simp [csvValueOf, csvValueOfList_map_key, Option.orElse]

/-- Unfolding of the normalization at a threshold node. -/
theorem normalized_thresh_eq (k : Nat) (subs : List SemPol) :
    normalized (SemPol.thresh k subs) = normThresh k (normalizedList subs) := by
  unfold normalized
  rfl

/-- Normalizing an n-of-n key threshold with at least two keys leaves
it untouched. -/
theorem norm_keys_and (l : List Nat) (h2 : 2 ≤ l.length) :
    normalized (SemPol.thresh l.length (l.map SemPol.key))
      = SemPol.thresh l.length (l.map SemPol.key) := by
  rw [normalized_thresh_eq, normalizedList_map_key]
  unfold normThresh
  have hA : (l.length == (l.map SemPol.key).length) = true := by simp
  have hO : (l.length == 1) = false := by
    simp only [beq_eq_false_iff_ne, ne_eq]
    omega
  rw [hA, hO]
  dsimp only
  rw [flattenSubs_keys, collapseSingle_ne_one _ _ (by simp; omega)]
  simp

/-- Normalizing a t-of-n key threshold with t below n leaves it
untouched. -/
theorem norm_keys_mid (t : Nat) (l : List Nat) (h1 : 1 ≤ t) (hlt : t < l.length) :
    normalized (SemPol.thresh t (l.map SemPol.key))
      = SemPol.thresh t (l.map SemPol.key) := by
  rw [normalized_thresh_eq, normalizedList_map_key]
  unfold normThresh
  have hA : (t == (l.map SemPol.key).length) = false := by
    simp only [List.length_map, beq_eq_false_iff_ne, ne_eq]
    omega
  rw [hA]
  dsimp only
  rw [flattenSubs_keys, collapseSingle_ne_one _ _ (by simp; omega)]
  rcases Nat.eq_or_lt_of_le h1 with h | h
  · rw [show (t == 1) = true by simp [← h]]
    simp [← h]
  · rw [show (t == 1) = false by
      simp only [beq_eq_false_iff_ne, ne_eq]
      omega]
    simp

/-- Normalizing a 1-of-1 key threshold collapses it to the key. -/
theorem norm_keys_single (m0 : Nat) :
    normalized (SemPol.thresh 1 [SemPol.key m0]) = SemPol.key m0 := by
  rfl

/-- Normalizing the cosigners-and-CSV branch splices the cosigner keys
into the surrounding and. -/
theorem norm_cosig_branch (cosigs : List Nat) (csv : Nat) (hc : cosigs ≠ []) :
    normalized (SemPol.thresh 2 [SemPol.thresh cosigs.length (cosigs.map SemPol.key),
        SemPol.older csv])
      = SemPol.thresh (cosigs.length + 1) (cosigs.map SemPol.key ++ [SemPol.older csv]) := by
  match cosigs, hc with
  | [c], _ => rfl
  | c :: c2 :: crest, _ =>
    rw [normalized_thresh_eq]
    rw [show normalizedList [SemPol.thresh (c :: c2 :: crest).length
          ((c :: c2 :: crest).map SemPol.key), SemPol.older csv]
        = [normalized (SemPol.thresh (c :: c2 :: crest).length
            ((c :: c2 :: crest).map SemPol.key)), SemPol.older csv] from rfl]
    rw [norm_keys_and _ (by simp)]
    unfold normThresh
    dsimp only
    simp [flattenSubs, collapseSingle]

/-- Normalizing the managers branch: the cosigner keys and the CSV are
always spliced in; the manager threshold stays as an inner node exactly
when it is strict, and is spliced into bare keys when it is an n-of-n. -/
theorem norm_mans_branch (mans cosigs : List Nat) (t csv : Nat) (hm : mans ≠ [])
    (hc : cosigs ≠ []) (ht1 : 1 ≤ t) (htn : t ≤ mans.length) :
    normalized (SemPol.thresh 2 [SemPol.thresh t (mans.map SemPol.key),
        SemPol.thresh 2 [SemPol.thresh cosigs.length (cosigs.map SemPol.key),
          SemPol.older csv]])
      = if t < mans.length then
          SemPol.thresh (cosigs.length + 2)
            (SemPol.thresh t (mans.map SemPol.key)
              :: (cosigs.map SemPol.key ++ [SemPol.older csv]))
        else
          SemPol.thresh (mans.length + cosigs.length + 1)
            (mans.map SemPol.key ++ (cosigs.map SemPol.key ++ [SemPol.older csv])) := by
  match cosigs, hc with
  | cc :: ccrest, _ =>
    rw [normalized_thresh_eq]
    rw [show normalizedList [SemPol.thresh t (mans.map SemPol.key),
          SemPol.thresh 2 [SemPol.thresh (cc :: ccrest).length
            ((cc :: ccrest).map SemPol.key), SemPol.older csv]]
        = [normalized (SemPol.thresh t (mans.map SemPol.key)),
           normalized (SemPol.thresh 2 [SemPol.thresh (cc :: ccrest).length
             ((cc :: ccrest).map SemPol.key), SemPol.older csv])] from rfl]
    rw [norm_cosig_branch (cc :: ccrest) csv (by simp)]
    rcases Nat.lt_or_ge t mans.length with hlt | hge
    · rw [if_pos hlt, norm_keys_mid t mans ht1 hlt]
      unfold normThresh
      dsimp only
      have hne : t ≠ mans.length := Nat.ne_of_lt hlt
      simp [flattenSubs, collapseSingle, hne]
    · have heq : t = mans.length := by omega
      rw [if_neg (by omega)]
      subst heq
      match mans, hm with
      | [m0], _ =>
        rw [show ([m0] : List Nat).length = 1 from rfl]
        rw [show (([m0] : List Nat).map SemPol.key) = [SemPol.key m0] from rfl]
        rw [norm_keys_single]
        unfold normThresh
        dsimp only
        simp [flattenSubs, collapseSingle]
        omega
      | m0 :: m1 :: mrest, _ =>
        rw [norm_keys_and _ (by simp)]
        unfold normThresh
        dsimp only
        simp [flattenSubs, collapseSingle]
        omega

/-- Normalizing a two-element list. -/
theorem normalizedList_pair (a b : SemPol) :
    normalizedList [a, b] = [normalized a, normalized b] := rfl

/-- Lifting the Unvault policy gives the or-of-two-branches semantic
policy. -/
theorem lift_unvault_policy (stks mans cosigs : List Nat) (t csv : Nat) :
    liftPol (unvaultPolicy stks mans t cosigs csv)
      = SemPol.thresh 1 [SemPol.thresh stks.length (stks.map SemPol.key),
          SemPol.thresh 2 [SemPol.thresh t (mans.map SemPol.key),
            SemPol.thresh 2 [SemPol.thresh cosigs.length (cosigs.map SemPol.key),
              SemPol.older csv]]] := by
  unfold unvaultPolicy
  dsimp only
  simp [liftPol, liftPolList_map_key]

/-- Normalizing the stakeholders branch: a singleton set collapses to
its key, a larger set stays an n-of-n threshold. -/
theorem norm_stks_cases (stks : List Nat) (hs : stks ≠ []) :
    (∃ s0, stks = [s0] ∧
      normalized (SemPol.thresh stks.length (stks.map SemPol.key)) = SemPol.key s0)
    ∨ (2 ≤ stks.length ∧
      normalized (SemPol.thresh stks.length (stks.map SemPol.key))
        = SemPol.thresh stks.length (stks.map SemPol.key)) := by
  match stks, hs with
  | [s0], _ => exact Or.inl ⟨s0, rfl, rfl⟩
  | s0 :: s1 :: srest, _ =>
    exact Or.inr ⟨by simp, norm_keys_and _ (by simp)⟩

/-- The or-flattening keeps any child that is not a 1-threshold. -/
theorem flattenSubs_or_keep (x : SemPol) (rest : List SemPol)
    (hx : ∀ k subs, x = SemPol.thresh k subs → k ≠ 1) :
    flattenSubs false true (x :: rest) = x :: flattenSubs false true rest := by
  cases x with
  | key k => rfl
  | older t => rfl
  | thresh k subs =>
    have hk : (k == 1) = false := by
      simp only [beq_eq_false_iff_ne, ne_eq]
      exact hx k subs rfl
    simp [flattenSubs, hk]

/-- Root normalization: a 1-of-2 whose children are not 1-thresholds is
left untouched. -/
theorem normThresh_one_pair (x y : SemPol)
    (hx : ∀ k subs, x = SemPol.thresh k subs → k ≠ 1)
    (hy : ∀ k subs, y = SemPol.thresh k subs → k ≠ 1) :
    normThresh 1 [x, y] = SemPol.thresh 1 [x, y] := by
  unfold normThresh
  dsimp only
  simp only [List.length_cons, List.length_nil]
  norm_num
  rw [show ((1 : Nat) == 2) = false from rfl]
  rw [flattenSubs_or_keep x _ hx, flattenSubs_or_keep y _ hy]
  simp [flattenSubs, collapseSingle]

/-- Normalization of the whole lifted Unvault policy. -/
theorem norm_unvault_policy (stks mans cosigs : List Nat) (t csv : Nat)
    (hs : stks ≠ []) (hm : mans ≠ []) (hc : cosigs ≠ []) (ht1 : 1 ≤ t)
    (htn : t ≤ mans.length) :
    normalized (liftPol (unvaultPolicy stks mans t cosigs csv))
      = SemPol.thresh 1
          [normalized (SemPol.thresh stks.length (stks.map SemPol.key)),
           if t < mans.length then
             SemPol.thresh (cosigs.length + 2)
               (SemPol.thresh t (mans.map SemPol.key)
                 :: (cosigs.map SemPol.key ++ [SemPol.older csv]))
           else
             SemPol.thresh (mans.length + cosigs.length + 1)
               (mans.map SemPol.key ++ (cosigs.map SemPol.key ++ [SemPol.older csv]))] := by
  rw [lift_unvault_policy, normalized_thresh_eq, normalizedList_pair,
      norm_mans_branch mans cosigs t csv hm hc ht1 htn]
  apply normThresh_one_pair
  · intro k subs hEq
    rcases norm_stks_cases stks hs with ⟨s0, _, hkey⟩ | ⟨h2, hth⟩
    · rw [hkey] at hEq
      exact SemPol.noConfusion hEq
    · rw [hth] at hEq
      injection hEq with h1 h2'
      omega
  · intro k subs hEq
    have hcl : 0 < cosigs.length := List.length_pos.mpr hc
    have hml : 0 < mans.length := List.length_pos.mpr hm
    by_cases hlt : t < mans.length
    · rw [if_pos hlt] at hEq
      injection hEq with h1 h2'
      omega
    · rw [if_neg hlt] at hEq
      injection hEq with h1 h2'
      omega

/-- `managers_threshold` reduces to the branch scan once the normalized
policy is a 1-of-2. -/
theorem managersThresholdOf_eq_scan (d : CPol) (a b : SemPol)
    (h : normalized (liftPol d) = SemPol.thresh 1 [a, b]) :
    managersThresholdOf d = mansThreshScan [a, b] := by
  unfold managersThresholdOf
  rw [h]
  rfl

/-- The branch scan skips a bare key. -/
theorem mansThreshScan_key_cons (s0 : Nat) (rest : List SemPol) :
    mansThreshScan (SemPol.key s0 :: rest) = mansThreshScan rest := rfl

/-- The branch scan skips an n-of-n threshold of bare keys: it has no
`Older` child. -/
theorem mansThreshScan_keys_thresh_cons (l : List Nat) (rest : List SemPol) :
    mansThreshScan (SemPol.thresh l.length (l.map SemPol.key) :: rest)
      = mansThreshScan rest := by
  simp [mansThreshScan, any_isOlder_keys]

/-- The branch scan on the normalized managers branch with a strict
threshold finds the inner manager threshold. -/
theorem mansThreshScan_mans_strict (mans cosigs : List Nat) (t csv : Nat) :
    mansThreshScan [SemPol.thresh (cosigs.length + 2)
        (SemPol.thresh t (mans.map SemPol.key)
          :: (cosigs.map SemPol.key ++ [SemPol.older csv]))]
      = MansThreshResult.result (some t) := by
  have hb : (cosigs.length + 2 == cosigs.length + 1 + 1) = true := by
    have h2 : cosigs.length + 2 = cosigs.length + 1 + 1 := by omega
    simp [h2]
  simp [mansThreshScan, hb, isOlderPol, any_isOlder_keys, threshOf]

/-- The branch scan on the normalized managers branch with a full
threshold (spliced into bare keys) finds no inner threshold. -/
theorem mansThreshScan_mans_full (mans cosigs : List Nat) (csv : Nat) :
    mansThreshScan [SemPol.thresh (mans.length + cosigs.length + 1)
        (mans.map SemPol.key ++ (cosigs.map SemPol.key ++ [SemPol.older csv]))]
      = MansThreshResult.result none := by
  have hb : (mans.length + cosigs.length + 1 == mans.length + (cosigs.length + 1)) = true := by
    have h2 : mans.length + cosigs.length + 1 = mans.length + (cosigs.length + 1) := by omega
    simp [h2]
  simp [mansThreshScan, hb, isOlderPol, any_isOlder_keys, threshOf,
    findSome_threshOf_keys_append]

/-- `managers_threshold` on the Unvault policy: `some t` exactly when
the manager threshold is strict. -/
theorem mans_thresh_scan_unvault (stks mans cosigs : List Nat) (t csv : Nat)
    (hs : stks ≠ []) (hm : mans ≠ []) (hc : cosigs ≠ []) (ht1 : 1 ≤ t)
    (htn : t ≤ mans.length) :
    managersThresholdOf (unvaultPolicy stks mans t cosigs csv)
      = MansThreshResult.result (if t < mans.length then some t else none) := by
  rw [managersThresholdOf_eq_scan _ _ _
    (norm_unvault_policy stks mans cosigs t csv hs hm hc ht1 htn)]
  have hM : mansThreshScan
        [if t < mans.length then
           SemPol.thresh (cosigs.length + 2)
             (SemPol.thresh t (mans.map SemPol.key)
               :: (cosigs.map SemPol.key ++ [SemPol.older csv]))
         else
           SemPol.thresh (mans.length + cosigs.length + 1)
             (mans.map SemPol.key ++ (cosigs.map SemPol.key ++ [SemPol.older csv]))]
      = MansThreshResult.result (if t < mans.length then some t else none) := by
    by_cases hlt : t < mans.length
    · rw [if_pos hlt, if_pos hlt]
      exact mansThreshScan_mans_strict mans cosigs t csv
    · rw [if_neg hlt, if_neg hlt]
      exact mansThreshScan_mans_full mans cosigs csv
  rcases norm_stks_cases stks hs with ⟨s0, _, hkey⟩ | ⟨_, hth⟩
  · rw [hkey, mansThreshScan_key_cons]
    exact hM
  · rw [hth, mansThreshScan_keys_thresh_cons]
    exact hM

/-- Introspection of the Unvault policy: the CSV value and the managers
threshold are recovered from the compiled policy. -/
theorem unvault_policy_introspection (stks mans cosigs : List Nat) (t csv : Nat)
    (hs : stks ≠ []) (hm : mans ≠ []) (hc : cosigs ≠ []) (ht1 : 1 ≤ t)
    (htn : t ≤ mans.length) :
    csvValueOf (unvaultPolicy stks mans t cosigs csv) = some csv ∧
      managersThresholdOf (unvaultPolicy stks mans t cosigs csv)
        = MansThreshResult.result (if t < mans.length then some t else none) :=
  ⟨csvValueOf_unvaultPolicy stks mans cosigs t csv,
   mans_thresh_scan_unvault stks mans cosigs t csv hs hm hc ht1 htn⟩

/-- C3: every Unvault descriptor successfully built by
`UnvaultDescriptor::new` or `DerivedUnvaultDescriptor::new` from
parameters (stakeholders, managers, threshold t, cosigners, csv)
satisfies: `csv_value()` returns csv, and `managers_threshold()`
returns `Some(t)` when `t < |managers|` and `None` when
`t = |managers|`.  The hypothesis `1 ≤ t` reflects that the Miniscript
policy compiler rejects 0-thresholds, so every successfully compiled
descriptor has a positive managers threshold. -/
theorem unvault_descriptor_introspection :
    (∀ (stks mans cosigs : List GDescKey) (t csv : Nat) (d : CPol), 1 ≤ t →
        unvaultDescriptorNew stks mans t cosigs csv = Except.ok d →
        csvValueOf d = some csv ∧
          managersThresholdOf d
            = MansThreshResult.result (if t < mans.length then some t else none))
    ∧ (∀ (stks mans cosigs : List Nat) (t csv : Nat) (d : CPol), 1 ≤ t →
        derivedUnvaultDescriptorNew stks mans t cosigs csv = Except.ok d →
        csvValueOf d = some csv ∧
          managersThresholdOf d
            = MansThreshResult.result (if t < mans.length then some t else none)) := by
  constructor
  · intro stks mans cosigs t csv d ht1 h
    unfold unvaultDescriptorNew at h
    by_cases hf : unvaultDescChecksFail stks.length mans.length t cosigs.length csv
    · rw [if_pos hf] at h
      exact Except.noConfusion h
    · rw [if_neg hf] at h
      by_cases hw : checkDeriveable (stks ++ mans)
      · rw [if_neg (not_not_intro hw)] at h
        injection h with h
        subst h
        simp only [unvaultDescChecksFail, Bool.or_eq_true, beq_iff_eq, bne_iff_ne, ne_eq,
          not_or, not_not, decide_eq_true_eq] at hf
        obtain ⟨⟨⟨⟨⟨⟨h1, h2⟩, h3⟩, h4⟩, -⟩, -⟩, -⟩ := hf
        have hs' : stks.map GDescKey.keyId ≠ [] := by
          intro hx
          apply h1
          simpa using congrArg List.length hx
        have hm' : mans.map GDescKey.keyId ≠ [] := by
          intro hx
          apply h2
          simpa using congrArg List.length hx
        have hc' : cosigs.map GDescKey.keyId ≠ [] := by
          intro hx
          apply h1
          rw [← h3]
          simpa using congrArg List.length hx
        have htn' : t ≤ (mans.map GDescKey.keyId).length := by
          simp only [List.length_map]
          omega
        have hres := unvault_policy_introspection (stks.map GDescKey.keyId)
          (mans.map GDescKey.keyId) (cosigs.map GDescKey.keyId) t csv hs' hm' hc' ht1 htn'
        simpa [List.length_map] using hres
      · rw [if_pos hw] at h
        exact Except.noConfusion h
  · intro stks mans cosigs t csv d ht1 h
    unfold derivedUnvaultDescriptorNew at h
    by_cases hf : unvaultDescChecksFail stks.length mans.length t cosigs.length csv
    · rw [if_pos hf] at h
      exact Except.noConfusion h
    · rw [if_neg hf] at h
      injection h with h
      subst h
      simp only [unvaultDescChecksFail, Bool.or_eq_true, beq_iff_eq, bne_iff_ne, ne_eq,
        not_or, not_not, decide_eq_true_eq] at hf
      obtain ⟨⟨⟨⟨⟨⟨h1, h2⟩, h3⟩, h4⟩, -⟩, -⟩, -⟩ := hf
      exact unvault_policy_introspection stks mans cosigs t csv
        (by intro hx; apply h1; simp [hx])
        (by intro hx; apply h2; simp [hx])
        (by intro hx; apply h1; rw [← h3]; simp [hx])
        ht1 (by omega)

/-- Witness for C3 at a concrete descriptor: 2 stakeholders, 3 managers
with threshold 2, 2 cosigners and a CSV of 42. -/
theorem unvault_descriptor_introspection_witness :
    csvValueOf (unvaultPolicy [1, 2] [3, 4, 5] 2 [6, 7] 42) = some 42 ∧
      managersThresholdOf (unvaultPolicy [1, 2] [3, 4, 5] 2 [6, 7] 42)
        = MansThreshResult.result (some 2) := by
  have h := unvault_descriptor_introspection.1
    [GDescKey.xpub true 1, GDescKey.xpub true 2]
    [GDescKey.xpub true 3, GDescKey.xpub true 4, GDescKey.xpub true 5]
    [GDescKey.xpub true 6, GDescKey.xpub true 7] 2 42
    (unvaultPolicy [1, 2] [3, 4, 5] 2 [6, 7] 42) (by omega) rfl
  simpa using h

/-- C4: `add_signature(i, pk, sig)` returns `OutOfBounds` when `i` is
not a valid input index; returns `AlreadyFinalized` when input `i`
carries a `final_script_witness`; and on a well-formed P2WSH input (as
the library always builds them: witness utxo present, no non-witness
utxo, the scriptPubKey being the P2WSH of the recorded witness script,
no redeem script, a recorded sighash type) it returns
`InvalidSignature` exactly when the ECDSA verification of `sig`
against `pk` over the sighash recomputed under the recorded sighash
type fails, and otherwise inserts `(pk, DER(sig) ++ sighash-type
byte)` into the input's partial signatures, returning the previous
value at that key, if any. -/
theorem add_signature_spec (sha : List Nat → List Nat)
    (bip143 : Nat → List Nat → Nat → Nat → Nat)
    (verify : Nat → Nat → Nat → Bool) (der : Nat → List Nat)
    (p : PsbtM) (i pk sig : Nat) :
    (p.inputs[i]? = none →
      addSignatureM sha bip143 verify der p i pk sig = AddSigResult.outOfBounds)
    ∧ (∀ pin, p.inputs[i]? = some pin → pin.finalScriptWitness.isSome →
      addSignatureM sha bip143 verify der p i pk sig = AddSigResult.alreadyFinalized)
    ∧ (∀ pin txo ws sht, p.inputs[i]? = some pin →
      pin.finalScriptWitness = none →
      pin.witnessUtxo = some txo →
      pin.hasNonWitnessUtxo = false →
      pin.witnessScript = some ws →
      toV0P2wsh sha ws = txo.spk →
      (sha ws).length = 32 →
      pin.hasRedeemScript = false →
      pin.sighashType = some sht →
      (verify (bip143 i ws txo.value sht) sig pk = false →
        addSignatureM sha bip143 verify der p i pk sig = AddSigResult.invalidSignature)
      ∧ (verify (bip143 i ws txo.value sht) sig pk = true →
        addSignatureM sha bip143 verify der p i pk sig
          = AddSigResult.ok (insertSig pin.sigs pk (der sig ++ [sht % 256])).1
              (p.inputs.set i
                { pin with sigs := (insertSig pin.sigs pk (der sig ++ [sht % 256])).2 }))) := by
  refine ⟨?_, ?_, ?_⟩
  · intro h
    unfold addSignatureM
    rw [h]
  · intro pin h1 h2
    unfold addSignatureM
    rw [h1]
    dsimp only
    rw [if_pos h2]
  · intro pin txo ws sht h1 h2 h3 h4 h5 h6 hlen h7 h8
    have hwsh : isV0P2wsh txo.spk = true := by
      rw [← h6]
      unfold toV0P2wsh isV0P2wsh
      simp [hlen]
    have hsh : signatureHashM bip143 p i sht
        = SigHashRes.ok (bip143 i ws txo.value sht) := by
      unfold signatureHashM
      rw [h1]
      dsimp only
      rw [h3]
      dsimp only
      rw [if_pos hwsh, h5]
    have hmain : addSignatureM sha bip143 verify der p i pk sig
        = (if ¬ verify (bip143 i ws txo.value sht) sig pk then
             AddSigResult.invalidSignature
           else AddSigResult.ok (insertSig pin.sigs pk (der sig ++ [sht % 256])).1
             (p.inputs.set i
               { pin with sigs := (insertSig pin.sigs pk (der sig ++ [sht % 256])).2 })) := by
      unfold addSignatureM
      rw [h1]
      dsimp only
      rw [h2, h3, h4, h5, h7, h8]
      dsimp only
      rw [h6]
      simp only [Option.isSome_none, Bool.false_eq_true, if_false, beq_self_eq_true,
        Bool.not_true, hsh]
    constructor
    · intro hv
      rw [hmain, if_pos (by simp [hv])]
    · intro hv
      rw [hmain, if_neg (by simp [hv])]

/-- Witness for C4 at a concrete PSBT: the single well-formed P2WSH
input accepts a signature, the DER bytes with the sighash byte appended
are recorded under the key, and no previous value existed. -/
theorem add_signature_spec_witness :
    addSignatureM exSha exBip143 exVerifyTrue exDer exPsbtSig 0 5 77
      = AddSigResult.ok none [{ exSigInput with sigs := [(5, [48, 68, 77, 1])] }] := by
  have h := ((add_signature_spec exSha exBip143 exVerifyTrue exDer exPsbtSig 0 5 77).2.2
    exSigInput { value := 100000, spk := 0 :: 32 :: List.replicate 32 5 } [85] 1
    rfl rfl rfl rfl rfl rfl rfl rfl rfl).2 rfl
  simpa [insertSig, exDer, exSigInput] using h

end RevaultTx
